import Mathlib

/-!
Verification development for the OpenContext core (Rust).

The Rust sources under `crates/opencontext-core` are shallowly embedded:
Rust `String`s become `List Char` (Unicode scalar values), SQLite tables
become lists of row structures, the filesystem becomes explicit sets of
directory/file paths, fallible operations return `Except`, and operations
thread an explicit state.  Byte-level operations of the source
(`&s[i..]`, `s[..=pos]`) are modelled through explicit UTF-8 byte
lengths, with `Option`/`Except` capturing the panics Rust raises when a
byte index is not a character boundary.
-/

set_option maxRecDepth 4000

namespace OpenContext

instance {ε α : Type} [DecidableEq ε] [DecidableEq α] : DecidableEq (Except ε α) := fun a b =>
  match a, b with
  | .error x, .error y => decidable_of_iff (x = y) (by simp)
  | .ok x, .ok y => decidable_of_iff (x = y) (by simp)
  | .error _, .ok _ => isFalse (by simp)
  | .ok _, .error _ => isFalse (by simp)

/-- Rust strings, modelled as lists of Unicode scalar values. -/
abbrev Str := List Char

/-- View a Lean string literal as a model string. -/
def str (s : String) : Str := s.data

/-- Number of bytes of the UTF-8 encoding of one scalar value. -/
def utf8Len (c : Char) : Nat :=
  if c.toNat < 0x80 then 1
  else if c.toNat < 0x800 then 2
  else if c.toNat < 0x10000 then 3
  else 4

/-- Byte length of the UTF-8 encoding of a string (Rust `str::len`). -/
def utf8ByteLen (s : Str) : Nat := (s.map utf8Len).sum

/-- Rust `&s[n..]` where `n` is a byte index: `none` models the panic when
`n` is not a character boundary or exceeds the byte length. -/
def byteDrop? : Nat → Str → Option Str
  | 0, s => some s
  | _ + 1, [] => none
  | n + 1, c :: rest =>
    if utf8Len c ≤ n + 1 then byteDrop? (n + 1 - utf8Len c) rest else none

/-- The Unicode `White_Space` property (Rust `char::is_whitespace`). -/
def isRustWhitespace (c : Char) : Bool :=
  let n := c.toNat
  (0x09 ≤ n && n ≤ 0x0D) || n == 0x20 || n == 0x85 || n == 0xA0 ||
  n == 0x1680 || (0x2000 ≤ n && n ≤ 0x200A) || n == 0x2028 || n == 0x2029 ||
  n == 0x202F || n == 0x205F || n == 0x3000

/-- Rust `str::trim`. -/
def rustTrim (s : Str) : Str :=
  ((s.dropWhile isRustWhitespace).reverse.dropWhile isRustWhitespace).reverse

/-- Rust `str::rfind(pat)` for a string pattern, returned as the character
index of the start of the last occurrence (the Rust byte index always sits
at the corresponding character boundary). -/
def rfindSub (hay pat : Str) : Option Nat :=
  ((List.range (hay.length + 1)).filter (fun k => pat.isPrefixOf (hay.drop k))).getLast?

/-- Rust `str::rfind` for a character predicate, as a character index. -/
def rfindPred (hay : Str) (p : Char → Bool) : Option Nat :=
  ((List.range hay.length).filter (fun k =>
    match hay.drop k with
    | c :: _ => p c
    | [] => false)).getLast?

/-- Rust `str::split(sep)`. -/
def splitOnChar (sep : Char) : Str → List Str
  | [] => [[]]
  | c :: rest =>
    let r := splitOnChar sep rest
    if c == sep then [] :: r
    else
      match r with
      | [] => [[c]]
      | h :: t => (c :: h) :: t

/-- Lower-case an ASCII letter (SQLite's `LIKE` folds only ASCII case). -/
def asciiLower (c : Char) : Char :=
  if 'A' ≤ c && c ≤ 'Z' then Char.ofNat (c.toNat + 32) else c

/-- SQLite's default `LIKE` operator (no `ESCAPE` clause is used by the
source): `%` matches any sequence of characters, `_` matches exactly one
character, and other characters compare ASCII-case-insensitively. -/
def likeMatch : Str → Str → Bool
  | [], s => s.isEmpty
  | '%' :: ps, s => s.tails.any (fun suffix => likeMatch ps suffix)
  | '_' :: ps, s =>
    match s with
    | [] => false
    | _ :: s2 => likeMatch ps s2
  | p :: ps, s =>
    match s with
    | [] => false
    | c :: s2 => (asciiLower p == asciiLower c) && likeMatch ps s2

/-- SQLite `BINARY` collation on UTF-8 text: lexicographic scalar order. -/
def strLE : Str → Str → Bool
  | [], _ => true
  | _ :: _, [] => false
  | x :: xs, y :: ys => if x == y then strLE xs ys else decide (x.toNat ≤ y.toNat)

/-- Stable insertion used to model SQL `ORDER BY`. -/
def insertSorted (le : α → α → Bool) (x : α) : List α → List α
  | [] => [x]
  | y :: ys => if le x y then x :: y :: ys else y :: insertSorted le x ys

/-- Deterministic (stable) sort modelling SQL `ORDER BY`. -/
def sortByBool (le : α → α → Bool) (l : List α) : List α :=
  l.foldr (insertSorted le) []

/-! ## Markdown chunker (`search/chunker.rs`) -/

/-- Chunker parameters (sizes in characters, not bytes). -/
structure Chunker where
  max_chunk_chars : Nat
  overlap_chars : Nat
deriving DecidableEq

/-- A text chunk before embedding (`search/types.rs`). -/
structure TextChunk where
  content : Str
  heading_path : Str
  start_line : Nat
  end_line : Nat
deriving DecidableEq

/-- The `"\n\n"` separator. -/
def nlnl : Str := ['\n', '\n']

/-- Sentence terminators tried, in order, by `split_chunk`. -/
def sentenceEnds : List Str :=
  [str "。", str "！", str "？", str ".\n", str "!\n", str "?\n",
   str ". ", str "! ", str "? "]

/-- Clause terminators tried, in order, by `split_chunk`. -/
def clauseEnds : List Char := ['，', '；', '、', ',', ';']

/-- `Chunker::split_chunk`: split text into (chunk, remainder).  The byte
index used by the clause-terminator branch (`search_text[..=pos]`) lies
inside the matched character whenever that character is multi-byte, which
panics in Rust; `.error ()` models that panic. -/
def Chunker.split_chunk (self : Chunker) (text : Str) : Except Unit (Str × Str) :=
  let char_count := text.length
  if char_count ≤ self.max_chunk_chars then .ok (text, [])
  else
    let search_text := text.take self.max_chunk_chars
    match rfindSub search_text nlnl with
    | some k =>
      let chunk := rustTrim (text.take k)
      let remainder := rustTrim (text.drop (k - self.overlap_chars))
      .ok (chunk, remainder)
    | none =>
    match sentenceEnds.findSome? (fun e => (rfindSub search_text e).map (fun k => (k, e))) with
    | some (k, e) =>
      let char_pos := k + e.length
      let chunk := rustTrim (text.take char_pos)
      let remainder := rustTrim (text.drop (char_pos - self.overlap_chars))
      .ok (chunk, remainder)
    | none =>
    match clauseEnds.findSome? (fun e => (rfindPred search_text (fun c => c == e)).map (fun k => (k, e))) with
    | some (k, e) =>
      if utf8Len e = 1 then
        let char_pos := k + 1
        let chunk := rustTrim (text.take char_pos)
        let remainder := rustTrim (text.drop (char_pos - self.overlap_chars))
        .ok (chunk, remainder)
      else
        -- Rust slices `search_text[..=pos]`, i.e. bytes `[0, pos+1)`; for a
        -- multi-byte clause terminator the index `pos+1` is not a character
        -- boundary and the slice panics.
        .error ()
    | none =>
    match rfindPred search_text isRustWhitespace with
    | some k =>
      let chunk := rustTrim (text.take k)
      let remainder := rustTrim (text.drop (k - self.overlap_chars))
      .ok (chunk, remainder)
    | none =>
      let chunk := text.take self.max_chunk_chars
      let remainder := text.drop (self.max_chunk_chars - self.overlap_chars)
      .ok (chunk, remainder)

/-- The `pulldown_cmark` events `Chunker::chunk` reacts to.  The markdown
parser itself is an external crate; its event stream is the input here. -/
inductive MdEvent where
  | startHeading (level : Nat)
  | endHeading
  | text (s : Str)
  | code (s : Str)
  | softBreak
  | hardBreak
  | endParagraph
  | endItem
  | other
deriving DecidableEq

/-- Mutable loop state of `Chunker::chunk`.  The heading stack is stored
innermost-first (the Rust `Vec` pushes and pops at its end). -/
structure ChunkState where
  chunks : List TextChunk
  heading_stack : List (Nat × Str)
  current_text : Str
  current_start_line : Nat
  line_number : Nat
  in_heading : Bool
  heading_level : Option Nat
  heading_text : Str
deriving DecidableEq

def initChunkState : ChunkState :=
  { chunks := [], heading_stack := [], current_text := [],
    current_start_line := 1, line_number := 1,
    in_heading := false, heading_level := none, heading_text := [] }

/-- `Chunker::build_heading_path` (the Rust stack is bottom-first). -/
def build_heading_path (headings : List (Nat × Str)) : Str :=
  List.intercalate (str " > ") (headings.reverse.map Prod.snd)

/-- The `match event` body of `Chunker::chunk`. -/
def stepEvent (st : ChunkState) (e : MdEvent) : ChunkState :=
  match e with
  | .startHeading level =>
    let st1 :=
      if (rustTrim st.current_text).isEmpty then st
      else
        { st with
          chunks := st.chunks ++ [{ content := rustTrim st.current_text,
                                    heading_path := build_heading_path st.heading_stack,
                                    start_line := st.current_start_line,
                                    end_line := st.line_number }],
          current_text := [] }
    { st1 with in_heading := true, heading_level := some level, heading_text := [] }
  | .endHeading =>
    let st1 :=
      match st.heading_level with
      | some level =>
        let stack1 := st.heading_stack.dropWhile (fun (p : Nat × Str) => decide (level ≤ p.1))
        { st with heading_stack := (level, rustTrim st.heading_text) :: stack1 }
      | none => st
    { st1 with in_heading := false, heading_level := none, heading_text := [],
               current_start_line := st1.line_number + 1 }
  | .text s =>
    let st1 :=
      if st.in_heading then { st with heading_text := st.heading_text ++ s }
      else { st with current_text := st.current_text ++ s }
    { st1 with line_number := st1.line_number + (s.filter (fun c => c == '\n')).length }
  | .code s =>
    if st.in_heading then { st with heading_text := st.heading_text ++ s }
    else { st with current_text := st.current_text ++ ['`'] ++ s ++ ['`'] }
  | .softBreak | .hardBreak =>
    let st1 :=
      if st.in_heading then { st with heading_text := st.heading_text ++ [' '] }
      else { st with current_text := st.current_text ++ ['\n'] }
    { st1 with line_number := st1.line_number + 1 }
  | .endParagraph => { st with current_text := st.current_text ++ nlnl }
  | .endItem => { st with current_text := st.current_text ++ ['\n'] }
  | .other => st

/-- The per-event size check of `Chunker::chunk`: split once whenever the
accumulated text exceeds `max_chunk_chars`. -/
def Chunker.checkSplit (self : Chunker) (st : ChunkState) : Except Unit ChunkState :=
  if st.current_text.length > self.max_chunk_chars then
    match self.split_chunk st.current_text with
    | .error e => .error e
    | .ok (chunk, remainder) =>
      .ok { st with
            chunks := st.chunks ++ [{ content := chunk,
                                      heading_path := build_heading_path st.heading_stack,
                                      start_line := st.current_start_line,
                                      end_line := st.line_number }],
            current_text := remainder,
            current_start_line := st.line_number }
  else .ok st

/-- The local `min_chunk_chars` of `post_process_chunks`. -/
def min_chunk_chars : Nat := 50

def postProcessGo : List TextChunk → List TextChunk → List TextChunk
  | acc, [] => acc.reverse
  | acc, chunk :: rest =>
    if chunk.content.length < min_chunk_chars then
      match acc with
      | [] => postProcessGo [chunk] rest
      | last :: acc2 =>
        postProcessGo ({ last with
                         content := last.content ++ nlnl ++ chunk.content,
                         end_line := chunk.end_line } :: acc2) rest
    else postProcessGo (chunk :: acc) rest

/-- `Chunker::post_process_chunks`: merge sub-minimum chunks into their
predecessor (kept as-is at position 0). -/
def Chunker.post_process_chunks (_ : Chunker) (chunks : List TextChunk) : List TextChunk :=
  postProcessGo [] chunks

def Chunker.chunkFold (self : Chunker) (st : ChunkState) : List MdEvent → Except Unit ChunkState
  | [] => .ok st
  | e :: rest =>
    match self.checkSplit (stepEvent st e) with
    | .error x => .error x
    | .ok st1 => self.chunkFold st1 rest

/-- `Chunker::chunk` over the parser's event stream: fold the events, flush
the final remainder, post-process.  `.error ()` models a panic. -/
def Chunker.chunk (self : Chunker) (events : List MdEvent) : Except Unit (List TextChunk) :=
  match self.chunkFold initChunkState events with
  | .error x => .error x
  | .ok st =>
    let final :=
      if (rustTrim st.current_text).isEmpty then st.chunks
      else st.chunks ++ [{ content := rustTrim st.current_text,
                           heading_path := build_heading_path st.heading_stack,
                           start_line := st.current_start_line,
                           end_line := st.line_number }]
    .ok (self.post_process_chunks final)

/-! ## Helper lemmas -/

theorem getLast?_mem {α : Type} {l : List α} {a : α} (h : l.getLast? = some a) : a ∈ l := by
  induction l with
  | nil => simp at h
  | cons x xs ih =>
    cases xs with
    | nil => simp [List.getLast?] at h; simp [h]
    | cons y ys =>
      rw [List.getLast?_cons_cons] at h
      exact List.mem_cons_of_mem _ (ih h)

theorem findSome?_inv {α β : Type} (f : α → Option β) (l : List α) (b : β)
    (h : l.findSome? f = some b) : ∃ a ∈ l, f a = some b := by
  induction l with
  | nil => simp [List.findSome?] at h
  | cons x xs ih =>
    rw [List.findSome?_cons] at h
    cases hfx : f x with
    | some v =>
      rw [hfx] at h
      simp at h
      exact ⟨x, List.mem_cons_self x xs, by rw [hfx, h]⟩
    | none =>
      rw [hfx] at h
      obtain ⟨a, ha, hfa⟩ := ih h
      exact ⟨a, List.mem_cons_of_mem _ ha, hfa⟩

theorem rfindSub_spec {hay pat : Str} {k : Nat} (h : rfindSub hay pat = some k) :
    pat.isPrefixOf (hay.drop k) = true ∧ k ≤ hay.length := by
  have hmem := getLast?_mem h
  rw [List.mem_filter] at hmem
  exact ⟨hmem.2, by have := List.mem_range.mp hmem.1; omega⟩

theorem rfindSub_len {hay pat : Str} {k : Nat} (h : rfindSub hay pat = some k) :
    k + pat.length ≤ hay.length := by
  obtain ⟨hpre, hk⟩ := rfindSub_spec h
  rw [List.isPrefixOf_iff_prefix] at hpre
  have := hpre.length_le
  rw [List.length_drop] at this
  omega

theorem rfindPred_lt {hay : Str} {p : Char → Bool} {k : Nat}
    (h : rfindPred hay p = some k) : k < hay.length := by
  have hmem := getLast?_mem h
  rw [List.mem_filter] at hmem
  exact List.mem_range.mp hmem.1

theorem rustTrim_length_le (s : Str) : (rustTrim s).length ≤ s.length := by
  unfold rustTrim
  rw [List.length_reverse]
  calc ((s.dropWhile isRustWhitespace).reverse.dropWhile isRustWhitespace).length
      ≤ (s.dropWhile isRustWhitespace).reverse.length :=
        (List.dropWhile_sublist _).length_le
    _ = (s.dropWhile isRustWhitespace).length := List.length_reverse _
    _ ≤ s.length := (List.dropWhile_sublist _).length_le

/-! ## Claims C3 and C4: the chunker -/

/-- The panicking input for C3: a paragraph whose only split points inside
the search window are multi-byte clause terminators. -/
def c3Events : List MdEvent := [.text (str "ab，cd，efghijklmn"), .endParagraph]

/-- Claim C3 (code bug): contrary to the specification, `Chunker::chunk`
panics when the chosen split point is a multi-byte clause terminator such
as `，`: `split_chunk` slices `search_text[..=pos]` at byte index `pos+1`,
which lies inside the three-byte character.  At `max_chunk_chars = 10`,
`overlap_chars = 0` and input `"ab，cd，efghijklmn"` (a single markdown
paragraph), the clause branch fires on `，` and the slice panics. -/
theorem c3_chunker_clause_split_panics :
    Chunker.chunk ⟨10, 0⟩ c3Events = .error () := by decide

/-- The C4 counterexample input: `"a\n\nbcd efg hij klm nop qrs tuv"` as a
markdown event stream, chunked with `max_chunk_chars = 10`. -/
def c4Events : List MdEvent :=
  [.text (str "a"), .endParagraph,
   .text (str "bcd efg hij klm nop qrs tuv"), .endParagraph]

/-- Claim C4 counterexample: with `max_chunk_chars = 10` the final output
contains a single chunk of 31 characters — far above the limit — although
the content is divisible (it contains `"\n\n"` and whitespace, so it is not
a single indivisible segment).  The final remainder flush and the
post-processing merge both ignore the bound. -/
theorem c4_counterexample :
    Chunker.chunk ⟨10, 0⟩ c4Events
      = .ok [⟨str "a\n\nbcd efg\n\nhij klm nop qrs tuv", [], 1, 1⟩] ∧
    (str "a\n\nbcd efg\n\nhij klm nop qrs tuv").length = 31 ∧
    rfindSub (str "a\n\nbcd efg\n\nhij klm nop qrs tuv") nlnl = some 10 := by decide

/-- Claim C4 (amended): every chunk emitted by a successful `split_chunk`
(the head of each split) has at most `max_chunk_chars` characters.  Chunks
flushed outside `split_chunk` — the remainder flushed when the parser ends
or when a new heading starts — and chunks enlarged by the post-processing
merge are exempt from the bound (see `c4_counterexample`).  -/
theorem c4_split_chunk_length_le (c : Chunker) (text chunk rem : Str)
    (h : c.split_chunk text = .ok (chunk, rem)) :
    chunk.length ≤ c.max_chunk_chars := by
  unfold Chunker.split_chunk at h
  dsimp only at h
  split at h
  case isTrue hle =>
    simp only [Except.ok.injEq, Prod.mk.injEq] at h
    obtain ⟨h1, _⟩ := h
    subst h1
    exact hle
  case isFalse hgt =>
    rw [Nat.not_le] at hgt
    have hwin : (text.take c.max_chunk_chars).length = c.max_chunk_chars := by
      rw [List.length_take]
      omega
    split at h
    · -- paragraph branch
      next k hk =>
      simp only [Except.ok.injEq, Prod.mk.injEq] at h
      obtain ⟨h1, _⟩ := h
      subst h1
      have hb := rfindSub_len hk
      rw [hwin] at hb
      calc (rustTrim (text.take k)).length ≤ (text.take k).length := rustTrim_length_le _
        _ ≤ k := by rw [List.length_take]; omega
        _ ≤ c.max_chunk_chars := by simp [nlnl] at hb; omega
    · split at h
      · -- sentence branch
        next k e hfs =>
        obtain ⟨e2, hmem, hre⟩ := findSome?_inv _ _ _ hfs
        cases hrf : rfindSub (text.take c.max_chunk_chars) e2 with
        | none => rw [hrf] at hre; simp at hre
        | some k0 =>
          rw [hrf] at hre
          simp at hre
          obtain ⟨hk0, he0⟩ := hre
          simp only [Except.ok.injEq, Prod.mk.injEq] at h
          obtain ⟨h1, _⟩ := h
          subst h1
          have hb := rfindSub_len hrf
          rw [hwin] at hb
          have hlen : e2.length = e.length := by rw [he0]
          refine le_trans (rustTrim_length_le _) ?_
          rw [List.length_take]
          omega
      · split at h
        · -- clause branch
          next k e hfc =>
          split at h
          · simp only [Except.ok.injEq, Prod.mk.injEq] at h
            obtain ⟨h1, _⟩ := h
            subst h1
            obtain ⟨e2, hmem, hre⟩ := findSome?_inv _ _ _ hfc
            cases hrf : rfindPred (text.take c.max_chunk_chars) (fun ch => ch == e2) with
            | none => rw [hrf] at hre; simp at hre
            | some k0 =>
              rw [hrf] at hre
              simp at hre
              obtain ⟨hk0, he0⟩ := hre
              have hb := rfindPred_lt hrf
              rw [hwin] at hb
              refine le_trans (rustTrim_length_le _) ?_
              rw [List.length_take]
              omega
          · exact absurd h (by simp)
        · split at h
          · -- whitespace branch
            next k hk =>
            simp only [Except.ok.injEq, Prod.mk.injEq] at h
            obtain ⟨h1, _⟩ := h
            subst h1
            have hb := rfindPred_lt hk
            rw [hwin] at hb
            calc (rustTrim (text.take k)).length ≤ (text.take k).length := rustTrim_length_le _
              _ ≤ k := by rw [List.length_take]; omega
              _ ≤ c.max_chunk_chars := by omega
          · -- hard split
            simp only [Except.ok.injEq, Prod.mk.injEq] at h
            obtain ⟨h1, _⟩ := h
            subst h1
            rw [List.length_take]
            omega

/-- Witness for `c4_split_chunk_length_le` at a concrete split. -/
theorem c4_split_chunk_length_le_witness :
    Chunker.split_chunk ⟨5, 0⟩ (str "ab cd ef") = .ok (str "ab", str "cd ef") ∧
    (str "ab").length ≤ 5 :=
  ⟨by decide,
   c4_split_chunk_length_le ⟨5, 0⟩ (str "ab cd ef") (str "ab") (str "cd ef") (by decide)⟩

/-! ## Events (`events.rs`, reconstructed from its uses in `lib.rs` and
`search/index_sync.rs`: the module file itself is not part of the sources
provided, but every variant and field appears at the use sites). -/

inductive DocEvent where
  | created (rel_path : Str)
  | updated (rel_path : Str)
  | deleted (rel_path : Str)
  | renamed (old_path new_path : Str)
  | moved (old_path new_path : Str)
deriving DecidableEq

inductive FolderEvent where
  | created (rel_path : Str)
  | deleted (rel_path : Str) (removed_docs : List Str)
  | renamed (old_path new_path : Str) (affected_docs : List (Str × Str))
  | moved (old_path new_path : Str) (affected_docs : List (Str × Str))
deriving DecidableEq

inductive Event where
  | doc (e : DocEvent)
  | folder (e : FolderEvent)
deriving DecidableEq

/-! ## Index sync service (`search/index_sync.rs`) -/

/-- `IndexAction` of `index_sync.rs`. -/
inductive IndexAction where
  | update (rel_path : Str)
  | remove (rel_path : Str)
  | rename (old_path new_path : Str)
deriving DecidableEq

/-- `IndexSyncService::event_to_actions`. -/
def event_to_actions : Event → List IndexAction
  | .doc (.created rel_path) | .doc (.updated rel_path) => [.update rel_path]
  | .doc (.deleted rel_path) => [.remove rel_path]
  | .doc (.renamed o n) | .doc (.moved o n) => [.rename o n]
  | .folder (.created _) => []
  | .folder (.renamed _ _ affected) | .folder (.moved _ _ affected) =>
    affected.map (fun x => .rename x.1 x.2)
  | .folder (.deleted _ removed) => removed.map (fun p => .remove p)

/-- The pending `HashMap<String, IndexAction>`, as an association list with
at most one entry per key (insert overwrites in place). -/
abbrev PendingMap := List (Str × IndexAction)

def mapInsert (m : PendingMap) (k : Str) (v : IndexAction) : PendingMap :=
  if m.any (fun p => p.1 == k) then m.map (fun p => if p.1 == k then (k, v) else p)
  else m ++ [(k, v)]

def mapRemove (m : PendingMap) (k : Str) : PendingMap :=
  m.filter (fun p => !(p.1 == k))

/-- The coalescing step of the event-listener loop in
`IndexSyncService::start`: `Update`/`Remove` overwrite by path, `Rename`
drops any action queued for the old path and keys itself by the new path. -/
def applyAction (m : PendingMap) (a : IndexAction) : PendingMap :=
  match a with
  | .update rel_path => mapInsert m rel_path (.update rel_path)
  | .remove rel_path => mapInsert m rel_path (.remove rel_path)
  | .rename o n => mapInsert (mapRemove m o) n (.rename o n)

/-- Deliver a sequence of events to the coalescing step. -/
def collectEvents (m : PendingMap) (events : List Event) : PendingMap :=
  events.foldl (fun acc e => (event_to_actions e).foldl applyAction acc) m

/-- The primitive index operations executed by the flush loop
(`Indexer::index_file` = delete-then-index, `Indexer::remove_file` =
delete, `Indexer::update_file_path` = delete old then index new if the
file exists). -/
inductive IndexOp where
  | deleteByFile (rel_path : Str)
  | indexDocument (rel_path : Str)
deriving DecidableEq

/-- Operations performed when the flush loop executes one action
(`newExists` abstracts the `abs_path.exists()` check of
`update_file_path`). -/
def execAction (newExists : Str → Bool) : IndexAction → List IndexOp
  | .update rel_path => [.deleteByFile rel_path, .indexDocument rel_path]
  | .remove rel_path => [.deleteByFile rel_path]
  | .rename o n =>
    [.deleteByFile o] ++ (if newExists n then [.deleteByFile n, .indexDocument n] else [])

/-- The four events of claim C5. -/
def c5Events (a b : Str) : List Event :=
  [.doc (.created a), .doc (.updated a), .doc (.renamed a b), .doc (.updated b)]

/-- Claim C5 counterexample: delivering `Created{a}`, `Updated{a}`,
`Renamed{a→b}`, `Updated{b}` does NOT leave the pending map equal to
`{b: Rename{a,b}}` — the trailing `Updated{b}` overwrites the rename
("latest wins"). -/
theorem c5_counterexample :
    collectEvents [] (c5Events (str "a") (str "b"))
      ≠ [(str "b", .rename (str "a") (str "b"))] := by decide

/-- Claim C5 (amended): after the four events the pending map equals
`{b: Update{b}}`, so the drain executes exactly one action, which
re-indexes path `b` (one `delete_by_file b` plus one indexing of `b`);
path `a` is never removed from the index. -/
theorem c5_coalesce (a b : Str) (newExists : Str → Bool) :
    collectEvents [] (c5Events a b) = [(b, .update b)] ∧
    ((collectEvents [] (c5Events a b)).map (fun p => execAction newExists p.2)).flatten
      = [.deleteByFile b, .indexDocument b] := by
  have h1 : collectEvents [] (c5Events a b) = [(b, .update b)] := by
    simp [collectEvents, c5Events, event_to_actions, applyAction, mapInsert, mapRemove,
      List.foldl]
  exact ⟨h1, by rw [h1]; simp [execAction]⟩

/-! ## Vector store (`search/vector_store.rs`) -/

/-- A persisted chunk row (`search/types.rs`, `Chunk`); the `f32` embedding
payload is opaque to every operation modelled here and is omitted. -/
structure ChunkRow where
  id : Str
  file_path : Str
  content : Str
  heading_path : Str
  section_title : Option Str
  doc_type : Option Str
  entry_id : Option Str
  entry_date : Option Str
  entry_created_at : Option Str
  chunk_index : Nat
deriving DecidableEq

inductive SearchErr where
  | vectorStore (msg : Str)
  | indexNotBuilt
  | io
deriving DecidableEq

/-- `VectorStore`: `table = none` models "table not opened/created". -/
structure VectorStore where
  dimensions : Nat
  table : Option (List ChunkRow)
deriving DecidableEq

/-- `VectorStore::delete_by_file`: if the table does not exist, return
`Ok(0)` without touching anything; otherwise delete by the predicate
`file_path = '<escaped>'` (single quotes doubled, so the predicate selects
exactly the rows whose `file_path` equals the argument).  LanceDB's delete
does not report a count, so the source always returns `Ok(0)`. -/
def VectorStore.delete_by_file (self : VectorStore) (file_path : Str) :
    VectorStore × Except SearchErr Nat :=
  match self.table with
  | none => (self, .ok 0)
  | some rows =>
    ({ self with table := some (rows.filter (fun r => !(r.file_path == file_path))) }, .ok 0)

/-- `Indexer::remove_file`: just `delete_by_file`. -/
def Indexer.remove_file (vs : VectorStore) (rel_path : Str) :
    VectorStore × Except SearchErr Unit :=
  let res := vs.delete_by_file rel_path
  match res.2 with
  | .error e => (res.1, .error e)
  | .ok _ => (res.1, .ok ())

/-- Claim C10: on a store whose `chunks` table does not exist,
`delete_by_file` returns `Ok(0)` with the store unchanged, and therefore
`Indexer::remove_file` succeeds trivially before any index is built. -/
theorem c10_delete_by_file_no_table (vs : VectorStore) (p : Str)
    (h : vs.table = none) :
    vs.delete_by_file p = (vs, .ok 0) ∧ Indexer.remove_file vs p = (vs, .ok ()) := by
  have h1 : vs.delete_by_file p = (vs, .ok 0) := by
    unfold VectorStore.delete_by_file
    rw [h]
  exact ⟨h1, by unfold Indexer.remove_file; rw [h1]⟩

/-- Witness for `c10_delete_by_file_no_table`. -/
theorem c10_witness :
    (VectorStore.mk 1536 none).table = none ∧
    (VectorStore.mk 1536 none).delete_by_file (str "a/b.md")
      = (VectorStore.mk 1536 none, .ok 0) ∧
    Indexer.remove_file (VectorStore.mk 1536 none) (str "a/b.md")
      = (VectorStore.mk 1536 none, .ok ()) :=
  ⟨rfl, c10_delete_by_file_no_table (VectorStore.mk 1536 none) (str "a/b.md") rfl⟩

/-- Round `a / b` (for `b > 0`) to the nearest integer, ties to even:
the integer-rounding core of IEEE-754 round-to-nearest-even. -/
def roundHalfEven (a b : ℕ) : ℕ :=
  if 2 * (a % b) < b then a / b
  else if b < 2 * (a % b) then a / b + 1
  else if (a / b) % 2 = 0 then a / b else a / b + 1

/-- Decides `2 ^ e ≤ a / b` over the exact rationals, by integer comparison. -/
def floatPowLE (a b : ℕ) (e : ℤ) : Bool :=
  if 0 ≤ e then b * 2 ^ e.toNat ≤ a else b ≤ a * 2 ^ (-e).toNat

/-- Scan downward from exponent `e` until `2 ^ e ≤ a / b`. -/
def findExpAux (a b : ℕ) : ℕ → ℤ → ℤ
  | 0, e => e
  | fuel + 1, e => if floatPowLE a b e then e else findExpAux a b fuel (e - 1)

/-- The binade exponent of `a / b`: the unique `e` with `2 ^ e ≤ a/b < 2 ^ (e+1)`,
for `2 ^ (-150) ≤ a/b < 2 ^ 128` (the range relevant to binary32 rounding). -/
def findExp (a b : ℕ) : ℤ := findExpAux a b 300 127

/-- The exponent of one unit in the last place of a binary32 number in the
binade of `a / b`: `max e (-126) - 23` (subnormals share the spacing of the
smallest normal binade). -/
def ulpExp (a b : ℕ) : ℤ := max (findExp a b) (-126) - 23

/-- The rounded significand: `a / b` divided by the ulp, rounded to the
nearest integer with ties to even. -/
def round32Sig (a b : ℕ) : ℕ :=
  if 0 ≤ ulpExp a b then roundHalfEven a (b * 2 ^ (ulpExp a b).toNat)
  else roundHalfEven (a * 2 ^ (-ulpExp a b).toNat) b

/-- IEEE-754 binary32 round-to-nearest-even of the nonnegative rational
`a / b` (`b > 0`), returned scaled by `2 ^ 149` (every finite nonnegative
binary32 value is an integer multiple of `2 ^ (-149)`, the smallest
subnormal).  `none` models overflow to `+∞`; values below `2 ^ (-150)`
round to zero. -/
def round32 (a b : ℕ) : Option ℕ :=
  if a = 0 then some 0
  else if a * 2 ^ 150 < b then some 0
  else if b * 2 ^ 128 ≤ a then none
  else if (2 ^ 24 - 1) * 2 ^ 253 < round32Sig a b * 2 ^ (ulpExp a b + 149).toNat then none
  else some (round32Sig a b * 2 ^ (ulpExp a b + 149).toNat)

/-- The exact rational value of a binary32 quantity scaled by `2 ^ 149`. -/
def f32val (y : ℕ) : ℚ := (y : ℚ) / 2 ^ 149

/-- The distance-to-score conversion of `VectorStore::search`,
`score = 1.0 / (1.0 + d.max(0.0))`, computed in `f32` arithmetic. -/
def distanceToScore (d : ℤ) : Option ℕ :=
  (round32 (2 ^ 149 + (max d 0).toNat) (2 ^ 149)).bind (fun s1 => round32 (2 ^ 149) s1)

/-- The full score expression of `VectorStore::search`. -/
def hitScore (distance : Option ℤ) : Option ℕ :=
  match distance with
  | some d => distanceToScore d
  | none => some (2 ^ 148)

theorem floatPowLE_iff (a b : ℕ) (e : ℤ) (hb : 0 < b) :
    floatPowLE a b e = true ↔ (2:ℚ) ^ e ≤ (a:ℚ) / b := by
  have hbq : (0:ℚ) < b := by exact_mod_cast hb
  unfold floatPowLE
  split
  · next he =>
    rw [le_div_iff₀ hbq]
    rw [show (2:ℚ)^e = (2:ℚ)^(e.toNat) by rw [← zpow_natCast]; congr 1; omega]
    simp only [decide_eq_true_eq]
    constructor
    · intro h
      calc (2:ℚ)^e.toNat * b = ((b * 2^e.toNat : ℕ) : ℚ) := by push_cast; ring
        _ ≤ (a:ℚ) := by exact_mod_cast h
    · intro h
      have : ((b * 2^e.toNat : ℕ) : ℚ) ≤ (a:ℚ) := by push_cast; linarith
      exact_mod_cast this
  · next he =>
    rw [show (2:ℚ)^e = ((2:ℚ)^((-e).toNat))⁻¹ by
      rw [← zpow_natCast (2:ℚ) (-e).toNat, ← zpow_neg]; congr 1; omega]
    have hp : (0:ℚ) < (2:ℚ)^((-e).toNat) := by positivity
    rw [inv_eq_one_div, div_le_div_iff₀ hp hbq, one_mul]
    simp only [decide_eq_true_eq]
    constructor
    · intro h
      calc (b:ℚ) ≤ ((a * 2^(-e).toNat : ℕ) : ℚ) := by exact_mod_cast h
        _ = (a:ℚ) * 2^(-e).toNat := by push_cast; ring
    · intro h
      have : (b:ℚ) ≤ ((a * 2^(-e).toNat : ℕ) : ℚ) := by push_cast; linarith
      exact_mod_cast this

theorem findExpAux_spec (a b : ℕ) (hb : 0 < b) (fuel : ℕ) :
    ∀ e : ℤ, (a:ℚ) / b < 2 ^ (e + 1) → (2:ℚ) ^ (e + 1 - fuel) ≤ (a:ℚ) / b →
      (2:ℚ) ^ (findExpAux a b fuel e) ≤ (a:ℚ) / b ∧
      (a:ℚ) / b < 2 ^ (findExpAux a b fuel e + 1) := by
  induction fuel with
  | zero =>
    intro e hub hlb
    simp only [Nat.cast_zero, sub_zero] at hlb
    exact absurd hub (not_lt.mpr hlb)
  | succ f ih =>
    intro e hub hlb
    unfold findExpAux
    split
    · next h => exact ⟨(floatPowLE_iff a b e hb).mp h, hub⟩
    · next h =>
      have hlt : (a:ℚ) / b < 2 ^ e := by
        by_contra hc
        exact h ((floatPowLE_iff a b e hb).mpr (not_lt.mp hc))
      apply ih (e - 1)
      · rw [sub_add_cancel]
        exact hlt
      · calc (2:ℚ) ^ (e - 1 + 1 - (f:ℤ)) = 2 ^ (e + 1 - ((f:ℤ) + 1)) := by ring_nf
          _ = 2 ^ (e + 1 - ((f + 1 : ℕ) : ℤ)) := by push_cast; ring_nf
          _ ≤ (a:ℚ) / b := hlb

theorem findExp_spec (a b : ℕ) (hb : 0 < b)
    (hlo : (2:ℚ) ^ (-(150:ℤ)) ≤ (a:ℚ) / b) (hhi : (a:ℚ) / b < 2 ^ (128:ℤ)) :
    (2:ℚ) ^ (findExp a b) ≤ (a:ℚ) / b ∧ (a:ℚ) / b < 2 ^ (findExp a b + 1) := by
  apply findExpAux_spec a b hb 300 127
  · exact hhi
  · calc (2:ℚ) ^ ((127:ℤ) + 1 - (300:ℕ)) = 2 ^ (-(172:ℤ)) := by norm_num
      _ ≤ 2 ^ (-(150:ℤ)) := by
        apply zpow_le_zpow_right₀ (by norm_num) (by norm_num)
      _ ≤ (a:ℚ) / b := hlo

theorem roundHalfEven_bounds (a b : ℕ) (hb : 0 < b) :
    (a:ℚ) / b - 1/2 ≤ (roundHalfEven a b : ℚ) ∧
    (roundHalfEven a b : ℚ) ≤ (a:ℚ) / b + 1/2 := by
  have hbq : (0:ℚ) < b := by exact_mod_cast hb
  have hkey : (a:ℚ) = (b:ℚ) * ((a / b : ℕ) : ℚ) + ((a % b : ℕ) : ℚ) := by
    exact_mod_cast (Nat.div_add_mod a b).symm
  have hfr : (a:ℚ) / b = ((a / b : ℕ) : ℚ) + ((a % b : ℕ) : ℚ) / b := by
    rw [hkey]
    field_simp
    ring
  have ht0 : (0:ℚ) ≤ ((a % b : ℕ) : ℚ) / b := by positivity
  have ht1 : ((a % b : ℕ) : ℚ) / b < 1 := by
    rw [div_lt_one hbq]
    exact_mod_cast Nat.mod_lt a hb
  unfold roundHalfEven
  split
  · next h =>
    have hq : ((a % b : ℕ) : ℚ) / b < 1/2 := by
      rw [div_lt_iff₀ hbq]
      have : (2:ℚ) * ((a % b : ℕ) : ℚ) < (b:ℚ) := by exact_mod_cast h
      linarith
    rw [hfr]
    constructor <;> linarith
  · next h =>
    have hq : (1:ℚ)/2 ≤ ((a % b : ℕ) : ℚ) / b := by
      rw [le_div_iff₀ hbq]
      have : (b:ℚ) ≤ (2:ℚ) * ((a % b : ℕ) : ℚ) := by exact_mod_cast not_lt.mp h
      linarith
    split
    · next h2 =>
      rw [hfr]
      push_cast
      constructor <;> linarith
    · next h2 =>
      have hq2 : ((a % b : ℕ) : ℚ) / b ≤ 1/2 := by
        rw [div_le_iff₀ hbq]
        have : (2:ℚ) * ((a % b : ℕ) : ℚ) ≤ (b:ℚ) := by exact_mod_cast not_lt.mp h2
        linarith
      split
      · rw [hfr]
        constructor <;> linarith
      · rw [hfr]
        push_cast
        constructor <;> linarith

theorem round32Sig_bounds (a b : ℕ) (hb : 0 < b) :
    (a:ℚ) / b / 2 ^ (ulpExp a b) - 1/2 ≤ (round32Sig a b : ℚ) ∧
    (round32Sig a b : ℚ) ≤ (a:ℚ) / b / 2 ^ (ulpExp a b) + 1/2 := by
  have hbq : (0:ℚ) < b := by exact_mod_cast hb
  unfold round32Sig
  split
  · next hg =>
    have hB : 0 < b * 2 ^ (ulpExp a b).toNat := by positivity
    have hval : ((a : ℕ):ℚ) / ((b * 2 ^ (ulpExp a b).toNat : ℕ) : ℚ)
        = (a:ℚ) / b / 2 ^ (ulpExp a b) := by
      push_cast
      rw [show ((2:ℚ) ^ (ulpExp a b).toNat) = (2:ℚ) ^ (ulpExp a b) by
        rw [← zpow_natCast]; congr 1; omega]
      rw [div_div]
    have := roundHalfEven_bounds a (b * 2 ^ (ulpExp a b).toNat) hB
    rw [hval] at this
    exact this
  · next hg =>
    have hval : ((a * 2 ^ (-ulpExp a b).toNat : ℕ) : ℚ) / (b:ℚ)
        = (a:ℚ) / b / 2 ^ (ulpExp a b) := by
      push_cast
      rw [show ((2:ℚ) ^ (-ulpExp a b).toNat) = (2:ℚ) ^ (-ulpExp a b) by
        rw [← zpow_natCast]; congr 1; omega]
      rw [zpow_neg]
      ring
    have := roundHalfEven_bounds (a * 2 ^ (-ulpExp a b).toNat) b hb
    rw [hval] at this
    exact this

theorem round32_le_max (a b y : ℕ) (hy : round32 a b = some y) :
    y ≤ (2 ^ 24 - 1) * 2 ^ 253 := by
  unfold round32 at hy
  split at hy
  · cases hy
    exact Nat.zero_le _
  · split at hy
    · cases hy
      exact Nat.zero_le _
    · split at hy
      · cases hy
      · split at hy
        · cases hy
        · next h =>
          cases hy
          omega

theorem round32_shape (a b y : ℕ) (hb : 0 < b)
    (hlo : (2:ℚ) ^ (-(150:ℤ)) ≤ (a:ℚ) / b)
    (hy : round32 a b = some y) :
    y = round32Sig a b * 2 ^ (ulpExp a b + 149).toNat ∧
    (2:ℚ) ^ (findExp a b) ≤ (a:ℚ) / b ∧ (a:ℚ) / b < 2 ^ (findExp a b + 1) := by
  have hbq : (0:ℚ) < b := by exact_mod_cast hb
  have hfl : floatPowLE a b (-150) = true := (floatPowLE_iff a b (-150) hb).mpr hlo
  have h150 : b ≤ a * 2 ^ 150 := by
    unfold floatPowLE at hfl
    rw [if_neg (by norm_num)] at hfl
    norm_num at hfl
    exact hfl
  have ha0 : ¬ a = 0 := by
    intro h
    subst h
    simp at h150
    omega
  have htiny : ¬ (a * 2 ^ 150 < b) := by omega
  unfold round32 at hy
  rw [if_neg ha0, if_neg htiny] at hy
  have hbig : ¬ (b * 2 ^ 128 ≤ a) := by
    intro hc
    rw [if_pos hc] at hy
    cases hy
  rw [if_neg hbig] at hy
  have hhi : (a:ℚ) / b < 2 ^ (128:ℤ) := by
    by_contra hc
    have : floatPowLE a b 128 = true := (floatPowLE_iff a b 128 hb).mpr (not_lt.mp hc)
    unfold floatPowLE at this
    rw [if_pos (by norm_num)] at this
    simp only [decide_eq_true_eq, show (128:ℤ).toNat = 128 from rfl] at this
    omega
  obtain ⟨h1, h2⟩ := findExp_spec a b hb hlo hhi
  split at hy
  · cases hy
  · cases hy
    exact ⟨rfl, h1, h2⟩


theorem round32_one_le_core (a b y : ℕ) (hb : 0 < b) (hba : b ≤ a)
    (hy : round32 a b = some y) :
    0 ≤ findExp a b ∧
    y = round32Sig a b * 2 ^ ((findExp a b).toNat + 126) ∧
    2 ^ 23 ≤ round32Sig a b := by
  have hbq : (0:ℚ) < b := by exact_mod_cast hb
  have hq1 : (1:ℚ) ≤ (a:ℚ) / b := by
    rw [le_div_iff₀ hbq, one_mul]
    exact_mod_cast hba
  have hlo : (2:ℚ) ^ (-(150:ℤ)) ≤ (a:ℚ) / b := by
    calc (2:ℚ) ^ (-(150:ℤ)) ≤ (2:ℚ) ^ (0:ℤ) :=
          zpow_le_zpow_right₀ (by norm_num) (by norm_num)
      _ = 1 := zpow_zero 2
      _ ≤ (a:ℚ) / b := hq1
  obtain ⟨hyeq, helo, hehi⟩ := round32_shape a b y hb hlo hy
  have he0 : 0 ≤ findExp a b := by
    by_contra hc
    push_neg at hc
    have h1 : (2:ℚ) ^ (findExp a b + 1) ≤ (2:ℚ) ^ (0:ℤ) :=
      zpow_le_zpow_right₀ (by norm_num) (by omega)
    rw [zpow_zero] at h1
    linarith
  have hulp : ulpExp a b = findExp a b - 23 := by
    unfold ulpExp
    rw [max_eq_left (by omega)]
  have hsig := (round32Sig_bounds a b hb).1
  have hdiv : (2:ℚ) ^ (23:ℤ) ≤ (a:ℚ) / b / 2 ^ (ulpExp a b) := by
    rw [le_div_iff₀ (zpow_pos (by norm_num) _)]
    calc (2:ℚ) ^ (23:ℤ) * 2 ^ (ulpExp a b) = 2 ^ (findExp a b) := by
          rw [hulp, ← zpow_add₀ (two_ne_zero)]
          congr 1
          ring
      _ ≤ (a:ℚ) / b := helo
  have hsig23 : 2 ^ 23 ≤ round32Sig a b := by
    by_contra hc
    push_neg at hc
    have hn : round32Sig a b ≤ 2 ^ 23 - 1 := by omega
    have hcq : (round32Sig a b : ℚ) ≤ ((2 ^ 23 - 1 : ℕ) : ℚ) := by exact_mod_cast hn
    have h23 : (2:ℚ) ^ (23:ℤ) = 8388608 := by norm_num
    have h23n : ((2 ^ 23 - 1 : ℕ) : ℚ) = 8388607 := by norm_num
    rw [h23] at hdiv
    rw [h23n] at hcq
    linarith
  refine ⟨he0, ?_, hsig23⟩
  have hexp : (ulpExp a b + 149).toNat = (findExp a b).toNat + 126 := by omega
  rw [hyeq, hexp]

theorem round32_ge_one (a b y : ℕ) (hb : 0 < b) (hba : b ≤ a)
    (hy : round32 a b = some y) : 2 ^ 149 ≤ y := by
  obtain ⟨he0, hyeq, hsig⟩ := round32_one_le_core a b y hb hba hy
  rw [hyeq]
  calc (2:ℕ) ^ 149 = 2 ^ 23 * 2 ^ 126 := by norm_num
    _ ≤ round32Sig a b * 2 ^ ((findExp a b).toNat + 126) :=
        Nat.mul_le_mul hsig (Nat.pow_le_pow_right (by norm_num) (by omega))

theorem round32_gap (a b y : ℕ) (hb : 0 < b) (hba : b ≤ a)
    (hy : round32 a b = some y) (hne : y ≠ 2 ^ 149) :
    2 ^ 149 + 2 ^ 126 ≤ y := by
  obtain ⟨he0, hyeq, hsig⟩ := round32_one_le_core a b y hb hba hy
  have hge := round32_ge_one a b y hb hba hy
  by_cases hcase : 150 ≤ (findExp a b).toNat + 126
  · rw [hyeq]
    calc (2:ℕ) ^ 149 + 2 ^ 126 ≤ 2 ^ 173 := by norm_num
      _ = 2 ^ 23 * 2 ^ 150 := by norm_num
      _ ≤ round32Sig a b * 2 ^ ((findExp a b).toNat + 126) :=
          Nat.mul_le_mul hsig (Nat.pow_le_pow_right (by norm_num) hcase)
  · have hnle : (findExp a b).toNat + 126 ≤ 149 := by omega
    have hn126 : 126 ≤ (findExp a b).toNat + 126 := by omega
    have h149 : (2:ℕ) ^ (149 - ((findExp a b).toNat + 126)) * 2 ^ ((findExp a b).toNat + 126)
        = 2 ^ 149 := by
      rw [← Nat.pow_add]
      congr 1
      omega
    have hylt : 2 ^ 149 < y := lt_of_le_of_ne hge (Ne.symm hne)
    have hsgt : 2 ^ (149 - ((findExp a b).toNat + 126)) < round32Sig a b := by
      by_contra hc
      push_neg at hc
      have hmul := Nat.mul_le_mul_right (2 ^ ((findExp a b).toNat + 126)) hc
      rw [h149] at hmul
      rw [hyeq] at hylt
      omega
    have hpown : (2:ℕ) ^ 126 ≤ 2 ^ ((findExp a b).toNat + 126) :=
      Nat.pow_le_pow_right (by norm_num) hn126
    rw [hyeq]
    calc (2:ℕ) ^ 149 + 2 ^ 126 ≤ 2 ^ 149 + 2 ^ ((findExp a b).toNat + 126) := by omega
      _ = (2 ^ (149 - ((findExp a b).toNat + 126)) + 1) * 2 ^ ((findExp a b).toNat + 126) := by
          rw [Nat.add_mul, one_mul, h149]
      _ ≤ round32Sig a b * 2 ^ ((findExp a b).toNat + 126) :=
          Nat.mul_le_mul_right _ (by omega)

theorem round32_pos (a b y : ℕ) (hb : 0 < b)
    (hlo : (2:ℚ) ^ (-(128:ℤ)) ≤ (a:ℚ) / b)
    (hy : round32 a b = some y) : 0 < y := by
  have hbq : (0:ℚ) < b := by exact_mod_cast hb
  have hlo' : (2:ℚ) ^ (-(150:ℤ)) ≤ (a:ℚ) / b :=
    le_trans (zpow_le_zpow_right₀ (by norm_num) (by norm_num)) hlo
  obtain ⟨hyeq, helo, hehi⟩ := round32_shape a b y hb hlo' hy
  have hdiv : (1:ℚ) ≤ (a:ℚ) / b / 2 ^ (ulpExp a b) := by
    rw [le_div_iff₀ (zpow_pos (by norm_num) _), one_mul]
    rcases le_or_lt (-126) (findExp a b) with hcase | hcase
    · have hg : ulpExp a b = findExp a b - 23 := by
        unfold ulpExp
        rw [max_eq_left (by omega)]
      calc (2:ℚ) ^ (ulpExp a b) = 2 ^ (findExp a b - 23) := by rw [hg]
        _ ≤ 2 ^ (findExp a b) := zpow_le_zpow_right₀ (by norm_num) (by omega)
        _ ≤ (a:ℚ) / b := helo
    · have hg : ulpExp a b = -149 := by
        unfold ulpExp
        rw [max_eq_right (by omega)]
        norm_num
      calc (2:ℚ) ^ (ulpExp a b) = 2 ^ (-(149:ℤ)) := by rw [hg]
        _ ≤ 2 ^ (-(128:ℤ)) := zpow_le_zpow_right₀ (by norm_num) (by norm_num)
        _ ≤ (a:ℚ) / b := hlo
  have hsig := (round32Sig_bounds a b hb).1
  have hsigpos : 0 < round32Sig a b := by
    by_contra hc
    push_neg at hc
    have h0 : round32Sig a b = 0 := by omega
    rw [h0] at hsig
    push_cast at hsig
    linarith
  rw [hyeq]
  exact Nat.mul_pos hsigpos (pow_pos (by norm_num) _)

theorem round32Sig_le_of_le (a b m : ℕ) (hb : 0 < b)
    (hdiv : (a:ℚ) / b / 2 ^ (ulpExp a b) ≤ ((2 ^ m : ℕ) : ℚ)) :
    round32Sig a b ≤ 2 ^ m := by
  have hsig := (round32Sig_bounds a b hb).2
  by_contra hc
  push_neg at hc
  have hcq : ((2 ^ m + 1 : ℕ) : ℚ) ≤ (round32Sig a b : ℚ) := by exact_mod_cast hc
  push_cast at hcq hdiv
  linarith

theorem round32_le_scale (a b y : ℕ) (hb : 0 < b) (hab : a ≤ b)
    (hy : round32 a b = some y) : y ≤ 2 ^ 149 := by
  by_cases h0 : a = 0
  · unfold round32 at hy
    rw [if_pos h0] at hy
    cases hy
    exact Nat.zero_le _
  by_cases htiny : a * 2 ^ 150 < b
  · unfold round32 at hy
    rw [if_neg h0, if_pos htiny] at hy
    cases hy
    exact Nat.zero_le _
  have hbq : (0:ℚ) < b := by exact_mod_cast hb
  have hlo : (2:ℚ) ^ (-(150:ℤ)) ≤ (a:ℚ) / b := by
    rw [show (2:ℚ) ^ (-(150:ℤ)) = ((2:ℚ) ^ (150:ℕ))⁻¹ by
      rw [← zpow_natCast (2:ℚ) 150, ← zpow_neg]; norm_num]
    rw [inv_eq_one_div, div_le_div_iff₀ (by positivity) hbq, one_mul]
    have h150 : b ≤ a * 2 ^ 150 := by omega
    calc (b:ℚ) ≤ ((a * 2 ^ 150 : ℕ) : ℚ) := by exact_mod_cast h150
      _ = (a:ℚ) * 2 ^ (150:ℕ) := by push_cast; ring
  obtain ⟨hyeq, helo, hehi⟩ := round32_shape a b y hb hlo hy
  have hq1 : (a:ℚ) / b ≤ 1 := by
    rw [div_le_one hbq]
    exact_mod_cast hab
  have he0 : findExp a b ≤ 0 := by
    by_contra hc
    push_neg at hc
    have h1 : (2:ℚ) ^ (1:ℤ) ≤ (2:ℚ) ^ (findExp a b) :=
      zpow_le_zpow_right₀ (by norm_num) (by omega)
    have h2 : (2:ℚ) ^ (1:ℤ) = 2 := by norm_num
    linarith
  by_cases he : findExp a b = 0
  · have hg : ulpExp a b = -23 := by
      unfold ulpExp
      rw [he]
      norm_num
    have hdiv : (a:ℚ) / b / 2 ^ (ulpExp a b) ≤ ((2 ^ 23 : ℕ) : ℚ) := by
      rw [hg, div_le_iff₀ (zpow_pos (by norm_num) _)]
      calc (a:ℚ) / b ≤ 1 := hq1
        _ = ((2 ^ 23 : ℕ) : ℚ) * 2 ^ (-(23:ℤ)) := by norm_num
    have hsigle := round32Sig_le_of_le a b 23 hb hdiv
    have hexp : (ulpExp a b + 149).toNat = 126 := by omega
    rw [hyeq, hexp]
    calc round32Sig a b * 2 ^ 126 ≤ 2 ^ 23 * 2 ^ 126 := Nat.mul_le_mul_right _ hsigle
      _ = 2 ^ 149 := by norm_num
  · have he1 : findExp a b ≤ -1 := by
      rcases lt_or_eq_of_le he0 with h | h
      · omega
      · exact absurd h he
    rcases le_or_lt (-126) (findExp a b) with hcase | hcase
    · have hg : ulpExp a b = findExp a b - 23 := by
        unfold ulpExp
        rw [max_eq_left (by omega)]
      have hdiv : (a:ℚ) / b / 2 ^ (ulpExp a b) ≤ ((2 ^ 24 : ℕ) : ℚ) := by
        rw [hg, div_le_iff₀ (zpow_pos (by norm_num) _)]
        calc (a:ℚ) / b ≤ 2 ^ (findExp a b + 1) := le_of_lt hehi
          _ = ((2 ^ 24 : ℕ) : ℚ) * 2 ^ (findExp a b - 23) := by
              rw [show ((2 ^ 24 : ℕ) : ℚ) = (2:ℚ) ^ (24:ℤ) by norm_num]
              rw [← zpow_add₀ (two_ne_zero)]
              congr 1
              ring
      have hsigle := round32Sig_le_of_le a b 24 hb hdiv
      have hexp : (ulpExp a b + 149).toNat ≤ 125 := by omega
      rw [hyeq]
      calc round32Sig a b * 2 ^ ((ulpExp a b + 149).toNat) ≤ 2 ^ 24 * 2 ^ 125 :=
            Nat.mul_le_mul hsigle (Nat.pow_le_pow_right (by norm_num) hexp)
        _ = 2 ^ 149 := by norm_num
    · have hg : ulpExp a b = -149 := by
        unfold ulpExp
        rw [max_eq_right (by omega)]
        norm_num
      have hdiv : (a:ℚ) / b / 2 ^ (ulpExp a b) ≤ ((2 ^ 24 : ℕ) : ℚ) := by
        rw [hg, div_le_iff₀ (zpow_pos (by norm_num) _)]
        calc (a:ℚ) / b ≤ 2 ^ (findExp a b + 1) := le_of_lt hehi
          _ ≤ 2 ^ (-(125:ℤ)) := zpow_le_zpow_right₀ (by norm_num) (by omega)
          _ = ((2 ^ 24 : ℕ) : ℚ) * 2 ^ (-(149:ℤ)) := by
              rw [show ((2 ^ 24 : ℕ) : ℚ) = (2:ℚ) ^ (24:ℤ) by norm_num]
              rw [← zpow_add₀ (two_ne_zero)]
              norm_num
      have hsigle := round32Sig_le_of_le a b 24 hb hdiv
      have hexp : (ulpExp a b + 149).toNat = 0 := by omega
      rw [hyeq, hexp]
      calc round32Sig a b * 2 ^ 0 ≤ 2 ^ 24 * 1 := by
            rw [pow_zero, mul_one, Nat.mul_one]
            exact hsigle
        _ ≤ 2 ^ 149 := by norm_num


theorem round32_upper (a b y : ℕ) (hb : 0 < b)
    (hq1 : (a:ℚ) / b < 1) (hy : round32 a b = some y) :
    (y:ℚ) / 2 ^ 149 ≤ (a:ℚ) / b + (2:ℚ) ^ (-(25:ℤ)) := by
  have hbq : (0:ℚ) < b := by exact_mod_cast hb
  have hqnn : (0:ℚ) ≤ (a:ℚ) / b := by positivity
  have hz25 : (0:ℚ) < (2:ℚ) ^ (-(25:ℤ)) := zpow_pos (by norm_num) _
  by_cases h0 : a = 0
  · unfold round32 at hy
    rw [if_pos h0] at hy
    cases hy
    push_cast
    rw [zero_div]
    linarith
  by_cases htiny : a * 2 ^ 150 < b
  · unfold round32 at hy
    rw [if_neg h0, if_pos htiny] at hy
    cases hy
    push_cast
    rw [zero_div]
    linarith
  have hlo : (2:ℚ) ^ (-(150:ℤ)) ≤ (a:ℚ) / b := by
    rw [show (2:ℚ) ^ (-(150:ℤ)) = ((2:ℚ) ^ (150:ℕ))⁻¹ by
      rw [← zpow_natCast (2:ℚ) 150, ← zpow_neg]; norm_num]
    rw [inv_eq_one_div, div_le_div_iff₀ (by positivity) hbq, one_mul]
    have h150 : b ≤ a * 2 ^ 150 := by omega
    calc (b:ℚ) ≤ ((a * 2 ^ 150 : ℕ) : ℚ) := by exact_mod_cast h150
      _ = (a:ℚ) * 2 ^ (150:ℕ) := by push_cast; ring
  obtain ⟨hyeq, helo, hehi⟩ := round32_shape a b y hb hlo hy
  have he1 : findExp a b ≤ -1 := by
    by_contra hc
    push_neg at hc
    have h1 : (2:ℚ) ^ (0:ℤ) ≤ (2:ℚ) ^ (findExp a b) :=
      zpow_le_zpow_right₀ (by norm_num) (by omega)
    rw [zpow_zero] at h1
    linarith
  have hgle : ulpExp a b ≤ -24 := by
    unfold ulpExp
    have h1 : max (findExp a b) (-126) ≤ -1 := max_le (by omega) (by norm_num)
    omega
  have hgge : -149 ≤ ulpExp a b := by
    unfold ulpExp
    have := le_max_right (findExp a b) (-126)
    omega
  have h2g : (0:ℚ) < 2 ^ (ulpExp a b) := zpow_pos (by norm_num) _
  have hycast : (y:ℚ) = (round32Sig a b : ℚ) * 2 ^ (ulpExp a b + 149) := by
    rw [hyeq]
    push_cast
    rw [show ((2:ℚ) ^ ((ulpExp a b + 149).toNat : ℕ)) = (2:ℚ) ^ (ulpExp a b + 149) by
      rw [← zpow_natCast]; congr 1; omega]
  have hsplit : (y:ℚ) / 2 ^ 149 = (round32Sig a b : ℚ) * 2 ^ (ulpExp a b) := by
    rw [hycast, zpow_add₀ (two_ne_zero), mul_comm ((2:ℚ) ^ (ulpExp a b)) _]
    rw [show ((2:ℚ) ^ (149:ℤ)) = (2:ℚ) ^ (149:ℕ) by rw [← zpow_natCast]; norm_num]
    field_simp
    ring
  have hsig := (round32Sig_bounds a b hb).2
  have hmul := mul_le_mul_of_nonneg_right hsig (le_of_lt h2g)
  have hexpand : ((a:ℚ) / b / 2 ^ (ulpExp a b) + 1/2) * 2 ^ (ulpExp a b)
      = (a:ℚ) / b + 2 ^ (ulpExp a b) / 2 := by
    field_simp
    ring
  have hsmall : (2:ℚ) ^ (ulpExp a b) / 2 ≤ 2 ^ (-(25:ℤ)) := by
    have h1 : (2:ℚ) ^ (ulpExp a b) ≤ 2 ^ (-(24:ℤ)) :=
      zpow_le_zpow_right₀ (by norm_num) hgle
    have h2 : (2:ℚ) ^ (-(24:ℤ)) / 2 = 2 ^ (-(25:ℤ)) := by norm_num
    rw [← h2]
    gcongr
  rw [hsplit]
  calc (round32Sig a b : ℚ) * 2 ^ (ulpExp a b)
      ≤ ((a:ℚ) / b / 2 ^ (ulpExp a b) + 1/2) * 2 ^ (ulpExp a b) := hmul
    _ = (a:ℚ) / b + 2 ^ (ulpExp a b) / 2 := hexpand
    _ ≤ (a:ℚ) / b + 2 ^ (-(25:ℤ)) := by linarith


theorem f32val_eq_one_iff (t : ℕ) : f32val t = 1 ↔ t = 2 ^ 149 := by
  unfold f32val
  rw [div_eq_one_iff_eq (by positivity : (0:ℚ) < 2 ^ 149).ne']
  constructor
  · intro h
    exact_mod_cast h
  · intro h
    subst h
    push_cast
    ring

/-- Claim C8 (amended): the reported score is the `f32` evaluation of
`1 / (1 + max(d, 0))` (`vector_store.rs`): for every distance `d ≥ 0`
(scaled by `2^149`) for which the two rounding steps yield finite values
`s1 = fl(1 + d)` and `s = fl(1 / s1)`, the score `s` is the program output,
lies in `(0, 1]`, and equals `1` exactly when the rounded sum `fl(1 + d)`
equals `1` — in particular at `d = 0`, but also at small nonzero distances
(any `0 ≤ d ≤ 2^(-24)`), so "equals 1 exactly when d = 0" fails. -/
theorem c8_score_rounded (d : ℤ) (hd : 0 ≤ d) (s1 s : ℕ)
    (h1 : round32 (2 ^ 149 + d.toNat) (2 ^ 149) = some s1)
    (h2 : round32 (2 ^ 149) s1 = some s) :
    distanceToScore d = some s ∧ hitScore (some d) = some s ∧
    0 < f32val s ∧ f32val s ≤ 1 ∧
    (f32val s = 1 ↔ f32val s1 = 1) ∧
    (d = 0 → s = 2 ^ 149) := by
  have hmax : max d 0 = d := max_eq_left hd
  have hds : distanceToScore d = some s := by
    unfold distanceToScore
    rw [hmax, h1]
    simpa using h2
  have hb1 : 0 < 2 ^ 149 := Nat.pos_pow_of_pos 149 (by norm_num)
  have hba : 2 ^ 149 ≤ 2 ^ 149 + d.toNat := Nat.le_add_right _ _
  have hs1ge : 2 ^ 149 ≤ s1 := round32_ge_one _ _ s1 hb1 hba h1
  have hs1pos : 0 < s1 := lt_of_lt_of_le hb1 hs1ge
  have hs1qpos : (0:ℚ) < (s1:ℚ) := by exact_mod_cast hs1pos
  have hs1max : s1 ≤ (2 ^ 24 - 1) * 2 ^ 253 := round32_le_max _ _ _ h1
  have hsle : s ≤ 2 ^ 149 := round32_le_scale (2 ^ 149) s1 s hs1pos hs1ge h2
  have hq2lo : (2:ℚ) ^ (-(128:ℤ)) ≤ ((2 ^ 149 : ℕ) : ℚ) / (s1:ℚ) := by
    rw [le_div_iff₀ hs1qpos]
    have hs277 : s1 ≤ 2 ^ 24 * 2 ^ 253 :=
      le_trans hs1max (Nat.mul_le_mul_right _ (by omega))
    calc (2:ℚ) ^ (-(128:ℤ)) * s1 ≤ (2:ℚ) ^ (-(128:ℤ)) * ((2 ^ 24 * 2 ^ 253 : ℕ) : ℚ) := by
          apply mul_le_mul_of_nonneg_left _ (le_of_lt (zpow_pos (by norm_num) _))
          exact_mod_cast hs277
      _ = ((2 ^ 149 : ℕ) : ℚ) := by
          push_cast
          norm_num
  have hspos : 0 < s := round32_pos (2 ^ 149) s1 s hs1pos hq2lo h2
  have hone : round32 (2 ^ 149) (2 ^ 149) = some (2 ^ 149) := by decide
  have hfpos : 0 < f32val s := by
    unfold f32val
    exact div_pos (by exact_mod_cast hspos) (by positivity)
  have hfle : f32val s ≤ 1 := by
    unfold f32val
    rw [div_le_one (by positivity)]
    exact_mod_cast hsle
  have hback : s1 = 2 ^ 149 → s = 2 ^ 149 := by
    intro hs1
    rw [hs1, hone] at h2
    exact (Option.some_inj.mp h2).symm
  refine ⟨hds, hds, hfpos, hfle, ?_, ?_⟩
  · rw [f32val_eq_one_iff s, f32val_eq_one_iff s1]
    constructor
    · intro hs_eq
      by_contra hne
      have hgap : 2 ^ 149 + 2 ^ 126 ≤ s1 := round32_gap _ _ s1 hb1 hba h1 hne
      have hq2lt1 : ((2 ^ 149 : ℕ) : ℚ) / (s1:ℚ) < 1 := by
        rw [div_lt_one hs1qpos]
        have : (2 ^ 149 : ℕ) < s1 := by omega
        exact_mod_cast this
      have hupper := round32_upper (2 ^ 149) s1 s hs1pos hq2lt1 h2
      have hq2le : ((2 ^ 149 : ℕ) : ℚ) / (s1:ℚ)
          ≤ ((2 ^ 149 : ℕ) : ℚ) / (((2 ^ 149 + 2 ^ 126 : ℕ)) : ℚ) := by
        gcongr
      have hnum : ((2 ^ 149 : ℕ) : ℚ) / (((2 ^ 149 + 2 ^ 126 : ℕ)) : ℚ) + (2:ℚ) ^ (-(25:ℤ)) < 1 := by
        push_cast
        norm_num
      have hslt : (s:ℚ) / 2 ^ 149 < 1 := by
        calc (s:ℚ) / 2 ^ 149 ≤ ((2 ^ 149 : ℕ) : ℚ) / (s1:ℚ) + (2:ℚ) ^ (-(25:ℤ)) := hupper
          _ ≤ ((2 ^ 149 : ℕ) : ℚ) / (((2 ^ 149 + 2 ^ 126 : ℕ)) : ℚ) + (2:ℚ) ^ (-(25:ℤ)) := by
              linarith
          _ < 1 := hnum
      rw [hs_eq] at hslt
      norm_num at hslt
    · exact hback
  · intro h0
    subst h0
    rw [show ((0:ℤ).toNat) = 0 from rfl, Nat.add_zero, hone] at h1
    exact hback (Option.some_inj.mp h1).symm


/-- Counterexample to claim C8 as stated: at the nonzero distance
`d = 2^(-25)` (scaled by `2^149`: the integer `2^124`), the `f32` sum
`1.0 + d` rounds to exactly `1.0` (the exact sum lies below the rounding
midpoint `1 + 2^(-24)`), so the program reports score `= 1` although
`d ≠ 0` — refuting "equals 1 exactly when d = 0". -/
theorem c8_counterexample :
    (0:ℤ) ≤ 2 ^ 124 ∧ (2 ^ 124 : ℤ) ≠ 0 ∧
    distanceToScore (2 ^ 124) = some (2 ^ 149) ∧
    hitScore (some (2 ^ 124)) = some (2 ^ 149) ∧
    f32val (2 ^ 149) = 1 := by
  refine ⟨by decide, by decide, by decide, by decide, ?_⟩
  unfold f32val
  norm_num

/-- Witness for `c8_score_rounded` at `d = 3`: `1 + 3` rounds exactly to
`4`, `1/4` is exactly representable, and the score is `1/4`. -/
theorem c8_witness :
    ((0:ℤ) ≤ 3 * 2 ^ 149 ∧
     round32 (2 ^ 149 + (3 * 2 ^ 149 : ℤ).toNat) (2 ^ 149) = some (2 ^ 151) ∧
     round32 (2 ^ 149) (2 ^ 151) = some (2 ^ 147)) ∧
    (distanceToScore (3 * 2 ^ 149) = some (2 ^ 147) ∧
     hitScore (some (3 * 2 ^ 149)) = some (2 ^ 147) ∧
     0 < f32val (2 ^ 147) ∧ f32val (2 ^ 147) ≤ 1 ∧
     (f32val (2 ^ 147) = 1 ↔ f32val (2 ^ 151) = 1) ∧
     ((3 * 2 ^ 149 : ℤ) = 0 → (2 ^ 147 : ℕ) = 2 ^ 149)) :=
  ⟨⟨by decide, by decide, by decide⟩,
   c8_score_rounded (3 * 2 ^ 149) (by decide) (2 ^ 151) (2 ^ 147) (by decide) (by decide)⟩

/-! ## Catalog service (`lib.rs`)

SQLite tables become lists of rows (in rowid order: `find_folder` /
`find_doc` take the first row matching the `WHERE` clause, and
`UPDATE ... WHERE id = ?` maps over the list).  The filesystem under
`contexts_root` becomes explicit lists of absolute directory and file
paths.  Timestamps (`now_iso()`) are passed in as an explicit `ts`
argument.  Emitted events are appended to an event log in the state. -/

structure FolderRow where
  id : Nat
  parent_id : Option Nat
  name : Str
  rel_path : Str
  abs_path : Str
  description : Str
  created_at : Str
  updated_at : Str
deriving DecidableEq

structure DocRow where
  id : Nat
  folder_id : Nat
  name : Str
  rel_path : Str
  abs_path : Str
  description : Str
  stable_id : Str
  created_at : Str
  updated_at : Str
deriving DecidableEq

/-- The filesystem under `contexts_root`, as absolute paths. -/
structure Fs where
  dirs : List Str
  files : List Str
deriving DecidableEq

/-- The whole observable state of one `OpenContext` instance. -/
structure St where
  folders : List FolderRow
  docs : List DocRow
  fs : Fs
  events : List Event
deriving DecidableEq

/-- `CoreError`: `Message` carries the formatted text; `Io` stands for any
`std::io::Error`. -/
inductive Err where
  | message (msg : Str)
  | io
deriving DecidableEq

/-- `PathBuf::join` for the root and a relative path. -/
def joinPath (root p : Str) : Str := root ++ ['/'] ++ p

/-- `Path::parent`, for the root-joined paths used by the service (these
always contain a separator). -/
def pathParent (p : Str) : Option Str :=
  match rfindPred p (fun c => c == '/') with
  | some k => some (p.take k)
  | none => none

/-- All ancestors of a path, outermost first, ending with the path itself. -/
def pathPrefixes (p : Str) : List Str :=
  let parts := splitOnChar '/' p
  (List.range parts.length).map (fun k => List.intercalate ['/'] (parts.take (k + 1)))

def Fs.hasPath (fs : Fs) (p : Str) : Bool := fs.dirs.contains p || fs.files.contains p

/-- `fs::create_dir_all`: create the directory and all ancestors; fails if
a regular file occupies any of them. -/
def Fs.mkdir_all (fs : Fs) (p : Str) : Fs × Except Err Unit :=
  if (pathPrefixes p).any (fun q => fs.files.contains q) then (fs, .error .io)
  else
    ({ fs with dirs := fs.dirs ++ (pathPrefixes p).filter (fun q => !(fs.dirs.contains q)) },
     .ok ())

/-- Rewrite a path that sits at or under `src` to sit at or under `dst`. -/
def replacePathUnder (src dst p : Str) : Str :=
  if p == src then dst
  else if (src ++ ['/']).isPrefixOf p then dst ++ ['/'] ++ p.drop (src.length + 1)
  else p

/-- `fs::rename`: move a file or a whole directory subtree. -/
def Fs.rename (fs : Fs) (src dst : Str) : Fs × Except Err Unit :=
  if fs.hasPath dst then (fs, .error .io)
  else if fs.files.contains src then
    ({ fs with files := (fs.files.filter (fun q => !(q == src))) ++ [dst] }, .ok ())
  else if fs.dirs.contains src then
    ({ dirs := fs.dirs.map (replacePathUnder src dst),
       files := fs.files.map (replacePathUnder src dst) }, .ok ())
  else (fs, .error .io)

/-- `fs::remove_file`. -/
def Fs.remove_file (fs : Fs) (p : Str) : Fs × Except Err Unit :=
  if fs.files.contains p then
    ({ fs with files := fs.files.filter (fun q => !(q == p)) }, .ok ())
  else (fs, .error .io)

/-- `fs::remove_dir` (fails on a non-empty directory). -/
def Fs.remove_dir (fs : Fs) (p : Str) : Fs × Except Err Unit :=
  if !(fs.dirs.contains p) then (fs, .error .io)
  else if (fs.dirs ++ fs.files).any (fun q => (p ++ ['/']).isPrefixOf q) then (fs, .error .io)
  else ({ fs with dirs := fs.dirs.filter (fun q => !(q == p)) }, .ok ())

/-- `fs::remove_dir_all`. -/
def Fs.remove_dir_all (fs : Fs) (p : Str) : Fs × Except Err Unit :=
  if !(fs.dirs.contains p) then (fs, .error .io)
  else
    ({ dirs := fs.dirs.filter (fun q => !(q == p || (p ++ ['/']).isPrefixOf q)),
       files := fs.files.filter (fun q => !((p ++ ['/']).isPrefixOf q)) }, .ok ())

/-- `normalize_folder_path` (the callers modelled here always pass `Some`,
so the `None → error` arm of the source cannot fire). -/
def normalize_folder_path (input : Str) : Str :=
  let trimmed := rustTrim input
  if trimmed = [] || trimmed = ['.'] || trimmed = ['/'] then []
  else
    List.intercalate ['/']
      ((splitOnChar '/' (trimmed.map (fun c => if c == '\\' then '/' else c))).filter
        (fun seg => !seg.isEmpty))

/-- `normalize_doc_path`. -/
def normalize_doc_path (input : Str) : Except Err Str :=
  let cleaned :=
    List.intercalate ['/']
      ((splitOnChar '/' ((rustTrim input).map (fun c => if c == '\\' then '/' else c))).filter
        (fun seg => !seg.isEmpty))
  if cleaned = [] then .error (.message (str "Document path cannot be root")) else .ok cleaned

/-- `parent_rel_path`. -/
def parent_rel_path (rel_path : Str) : Option Str :=
  if rel_path = [] then none
  else
    let parts := splitOnChar '/' rel_path
    let joined := List.intercalate ['/'] parts.dropLast
    if joined = [] then none else some joined

/-- `find_folder`: first row with the given `rel_path`. -/
def findFolder (st : St) (rel_path : Str) : Option FolderRow :=
  st.folders.find? (fun r => r.rel_path == rel_path)

/-- `find_doc`. -/
def findDoc (st : St) (rel_path : Str) : Option DocRow :=
  st.docs.find? (fun r => r.rel_path == rel_path)

def folder_not_found (rel_path : Str) : Err :=
  .message (str "Folder \"" ++ rel_path ++ str "\" does not exist. Use \"oc folder create "
    ++ rel_path ++ str "\" first.")

def doc_not_found (rel_path : Str) : Err :=
  .message (str "Document \"" ++ rel_path ++ str "\" not found.")

def folder_not_empty (rel_path : Str) : Err :=
  .message (str "Folder \"" ++ rel_path ++ str "\" is not empty. Use --force to delete recursively.")

/-- `SELECT id FROM folders WHERE rel_path = ?` as the `parent_id` of an
insert (NULL when the parameter is NULL or no row matches). -/
def parentIdSubquery (st : St) (parent : Option Str) : Option Nat :=
  parent.bind (fun p => (findFolder st p).map (fun r => r.id))

/-- `AUTOINCREMENT` id for a folder insert. -/
def nextFolderId (st : St) : Nat := (st.folders.map (fun r => r.id)).foldl max 0 + 1

/-- The last path segment (`rel_path.split('/').last().unwrap_or(rel_path)`). -/
def lastSegment (rel_path : Str) : Str := (splitOnChar '/' rel_path).getLastD rel_path

/-- `ensure_folder_record`: recursive upsert of a folder and its ancestors.
The recursion is on the parent chain; `fuel` bounds it (callers pass the
path length, which the strictly shorter parent paths never exhaust). -/
def ensureFolderRecord (root ts : Str) : Nat → St → Str → St × Except Err (Option FolderRow)
  | fuel, st, rel_path =>
    if rel_path = [] then (st, .ok none)
    else
      match findFolder st rel_path with
      | some existing => (st, .ok (some existing))
      | none =>
        let parentStep : St × Except Err Unit :=
          match parent_rel_path rel_path with
          | some parentRel =>
            if parentRel.isEmpty then (st, .ok ())
            else
              match fuel with
              | 0 => (st, .error .io)
              | f + 1 =>
                let res := ensureFolderRecord root ts f st parentRel
                match res.2 with
                | .error e => (res.1, .error e)
                | .ok _ => (res.1, .ok ())
          | none => (st, .ok ())
        match parentStep with
        | (st1, .error e) => (st1, .error e)
        | (st1, .ok ()) =>
          let abs_path := joinPath root rel_path
          let fsres := st1.fs.mkdir_all abs_path
          let st2 := { st1 with fs := fsres.1 }
          match fsres.2 with
          | .error e => (st2, .error e)
          | .ok () =>
            let newRow : FolderRow :=
              { id := nextFolderId st2,
                parent_id := parentIdSubquery st2 (parent_rel_path rel_path),
                name := lastSegment rel_path, rel_path := rel_path,
                abs_path := abs_path, description := [],
                created_at := ts, updated_at := ts }
            let st3 := { st2 with folders := st2.folders ++ [newRow] }
            (st3, .ok (findFolder st3 rel_path))

/-- `update_folder_description` (`UPDATE folders SET description, updated_at
WHERE rel_path = ?`). -/
def update_folder_description (ts : Str) (st : St) (rel_path description : Str) : St :=
  { st with folders := st.folders.map (fun r =>
      if r.rel_path == rel_path then { r with description := description, updated_at := ts }
      else r) }

structure FolderSummary where
  rel_path : Str
  abs_path : Str
  description : Str
deriving DecidableEq

structure RenameResult where
  old_path : Str
  new_path : Str
deriving DecidableEq

structure Removed where
  rel_path : Str
deriving DecidableEq

/-- `create_folder`. -/
def create_folder (root ts : Str) (st : St) (path : Str) (description : Option Str) :
    St × Except Err FolderSummary :=
  let rel_path := normalize_folder_path path
  if rel_path = [] then
    (st, .error (.message (str "Cannot create root folder. Provide a sub-path like \"project-a\".")))
  else
    let parent_path := parent_rel_path rel_path
    let ensured :=
      match parent_path with
      | some parent => ensureFolderRecord root ts rel_path.length st parent
      | none => (st, .ok none)
    match ensured with
    | (st1, .error e) => (st1, .error e)
    | (st1, .ok _) =>
      let parent_for_compare := parent_path.getD []
      if rel_path ≠ parent_for_compare ∧ (findFolder st1 rel_path).isSome then
        let st2 := update_folder_description ts st1 rel_path ((description.getD []))
        (st2, .ok { rel_path := rel_path, abs_path := joinPath root rel_path,
                    description := description.getD [] })
      else
        let name := lastSegment rel_path
        let abs_path := joinPath root rel_path
        let fsres := st1.fs.mkdir_all abs_path
        let st2 := { st1 with fs := fsres.1 }
        match fsres.2 with
        | .error e => (st2, .error e)
        | .ok () =>
          let newRow : FolderRow :=
            { id := nextFolderId st2, parent_id := parentIdSubquery st2 parent_path,
              name := name, rel_path := rel_path, abs_path := abs_path,
              description := description.getD [], created_at := ts, updated_at := ts }
          let st3 := { st2 with folders := st2.folders ++ [newRow] }
          (st3, .ok { rel_path := rel_path, abs_path := abs_path,
                      description := description.getD [] })

/-- The per-row subtree rewrite of `rename_folder`/`move_folder`:
`format!("{}/{}", new_rel_path, &child_rel[folder.rel_path.len() + 1..])`.
The slice index is the BYTE length of the old path plus one; `none` models
the panic when it is not a character boundary of the (LIKE-matched, but
not necessarily prefixed) row path. -/
def rewriteRelPath (oldRel newRel rel : Str) : Option Str :=
  (byteDrop? (utf8ByteLen oldRel + 1) rel).map (fun suffix => newRel ++ ['/'] ++ suffix)

/-- The folder-row loop of the rename/move transaction: every row matching
`rel_path LIKE '<old>/%'` is rewritten (rows are updated by their unique
`id`, so this is a map over the table). -/
def rewriteFolderRows (root ts oldRel newRel : Str) (rows : List FolderRow) :
    Option (List FolderRow) :=
  rows.mapM (fun r =>
    if likeMatch (oldRel ++ str "/%") r.rel_path then
      (rewriteRelPath oldRel newRel r.rel_path).map (fun updated_rel =>
        { r with rel_path := updated_rel, abs_path := joinPath root updated_rel,
                 updated_at := ts })
    else some r)

/-- The doc-row loop of the rename/move transaction. -/
def rewriteDocRows (root ts oldRel newRel : Str) (rows : List DocRow) :
    Option (List DocRow) :=
  rows.mapM (fun r =>
    if likeMatch (oldRel ++ str "/%") r.rel_path then
      (rewriteRelPath oldRel newRel r.rel_path).map (fun updated_rel =>
        { r with rel_path := updated_rel, abs_path := joinPath root updated_rel,
                 updated_at := ts })
    else some r)

/-- The `affected_docs` pairs built for the `FolderEvent::Renamed` payload. -/
def affectedPairs (oldRel newRel : Str) (paths : List Str) : Option (List (Str × Str)) :=
  paths.mapM (fun p => (rewriteRelPath oldRel newRel p).map (fun np => (p, np)))

/-- `rename_folder`. -/
def rename_folder (root ts : Str) (st : St) (path new_name : Str) :
    St × Except Err RenameResult :=
  let rel_path := normalize_folder_path path
  if rel_path = [] then
    (st, .error (.message (str "Cannot rename the root contexts directory.")))
  else if new_name.isEmpty || new_name.contains '/' then
    (st, .error (.message (str "New name must be a single path segment.")))
  else
    match findFolder st rel_path with
    | none => (st, .error (folder_not_found rel_path))
    | some folder =>
      let parent_path := parent_rel_path rel_path
      let new_rel_path :=
        match parent_path with
        | some parent => if parent.isEmpty then new_name else parent ++ ['/'] ++ new_name
        | none => new_name
      if (findFolder st new_rel_path).isSome then
        (st, .error (.message (str "Target folder \"" ++ new_rel_path ++ str "\" already exists.")))
      else
        let new_abs_path := joinPath root new_rel_path
        let mk :=
          match pathParent new_abs_path with
          | some parentAbs => st.fs.mkdir_all parentAbs
          | none => (st.fs, .ok ())
        let stA := { st with fs := mk.1 }
        match mk.2 with
        | .error e => (stA, .error e)
        | .ok () =>
          let mv := stA.fs.rename folder.abs_path new_abs_path
          let stB := { stA with fs := mv.1 }
          match mv.2 with
          | .error e => (stB, .error e)
          | .ok () =>
            -- collected before the transaction, for the event payload
            let affected_doc_paths :=
              (stB.docs.filter (fun d => likeMatch (folder.rel_path ++ str "/%") d.rel_path)).map
                (fun d => d.rel_path)
            -- transaction: update the folder row by id, then rewrite every
            -- row still matching `LIKE '<old>/%'` (the SELECT runs after the
            -- folder-row update)
            let folders1 := stB.folders.map (fun r =>
              if r.id = folder.id then
                { r with name := new_name, rel_path := new_rel_path,
                         abs_path := new_abs_path, updated_at := ts }
              else r)
            match rewriteFolderRows root ts folder.rel_path new_rel_path folders1,
                  rewriteDocRows root ts folder.rel_path new_rel_path stB.docs with
            | some folders2, some docs2 =>
              let stC := { stB with folders := folders2, docs := docs2 }
              match affectedPairs folder.rel_path new_rel_path affected_doc_paths with
              | some affected =>
                let stD := { stC with
                  events := stC.events ++ [.folder (.renamed rel_path new_rel_path affected)] }
                (stD, .ok { old_path := rel_path, new_path := new_rel_path })
              | none =>
                -- byte-boundary panic while building the event payload,
                -- after the transaction committed
                (stC, .error .io)
            | _, _ =>
              -- byte-boundary panic inside the transaction: the unwound
              -- transaction is rolled back
              (stB, .error .io)

/-- `remove_folder` (the source computes no timestamp here and touches the
filesystem only through the row's stored `abs_path`). -/
def remove_folder (st : St) (path : Str) (force : Bool) :
    St × Except Err Removed :=
  let rel_path := normalize_folder_path path
  if rel_path = [] then
    (st, .error (.message (str "Cannot remove the root contexts directory.")))
  else
    match findFolder st rel_path with
    | none => (st, .error (folder_not_found rel_path))
    | some folder =>
      let like_pat := rel_path ++ str "/%"
      let removed_docs :=
        (st.docs.filter (fun d => likeMatch like_pat d.rel_path || d.folder_id == folder.id)).map
          (fun d => d.rel_path)
      let child_count := (st.folders.filter (fun r => r.parent_id == some folder.id)).length
      let doc_count := (st.docs.filter (fun d => d.folder_id == folder.id)).length
      if force = false ∧ (0 < child_count ∨ 0 < doc_count) then
        (st, .error (folder_not_empty rel_path))
      else
        -- transaction: DELETE docs LIKE; DELETE folders LIKE;
        -- DELETE docs by folder_id; DELETE the folder row by id
        let docs1 := st.docs.filter (fun d => !(likeMatch like_pat d.rel_path))
        let docs2 := docs1.filter (fun d => !(d.folder_id == folder.id))
        let folders1 := st.folders.filter (fun r => !(likeMatch like_pat r.rel_path))
        let folders2 := folders1.filter (fun r => !(r.id == folder.id))
        let stA := { st with docs := docs2, folders := folders2 }
        let fsres :=
          if stA.fs.hasPath folder.abs_path then
            if force then stA.fs.remove_dir_all folder.abs_path
            else stA.fs.remove_dir folder.abs_path
          else (stA.fs, .ok ())
        let stB := { stA with fs := fsres.1 }
        match fsres.2 with
        | .error e => (stB, .error e)
        | .ok () =>
          let stC := { stB with events := stB.events ++ [.folder (.deleted rel_path removed_docs)] }
          (stC, .ok { rel_path := rel_path })

/-- `list_docs`. -/
def list_docs (st : St) (folder_path : Str) (recursive : Bool) :
    Except Err (List DocRow) :=
  let rel_folder_path := normalize_folder_path folder_path
  match findFolder st rel_folder_path with
  | none => .error (folder_not_found rel_folder_path)
  | some folder =>
    if recursive then
      let pattern := if folder.rel_path.isEmpty then str "%" else folder.rel_path ++ str "/%"
      .ok (sortByBool (fun a b => strLE a.rel_path b.rel_path)
            (st.docs.filter (fun d => likeMatch pattern d.rel_path)))
    else
      if rel_folder_path.isEmpty then
        -- `WHERE folder_id IS NULL`: the column is declared NOT NULL, so
        -- the predicate selects no row
        .ok (sortByBool (fun a b => strLE a.name b.name) (st.docs.filter (fun _ => false)))
      else
        .ok (sortByBool (fun a b => strLE a.name b.name)
              (st.docs.filter (fun d => d.folder_id == folder.id)))

/-- `rename_doc`. -/
def rename_doc (root ts : Str) (st : St) (doc_path new_name : Str) :
    St × Except Err RenameResult :=
  if new_name.isEmpty || new_name.contains '/' then
    (st, .error (.message (str "New name must be a single file name without \"/\".")))
  else
    match normalize_doc_path doc_path with
    | .error e => (st, .error e)
    | .ok rel_doc_path =>
      match findDoc st rel_doc_path with
      | none => (st, .error (doc_not_found rel_doc_path))
      | some doc =>
        let folder_rel := parent_rel_path doc.rel_path
        let new_rel_path :=
          match folder_rel.bind (fun p => if p.isEmpty then none else some p) with
          | some prfx => prfx ++ ['/'] ++ new_name
          | none => new_name
        if (findDoc st new_rel_path).isSome then
          (st, .error (.message (str "Document \"" ++ new_rel_path ++ str "\" already exists.")))
        else
          let new_abs_path := joinPath root new_rel_path
          let mk :=
            match pathParent new_abs_path with
            | some parentAbs => st.fs.mkdir_all parentAbs
            | none => (st.fs, .ok ())
          let stA := { st with fs := mk.1 }
          match mk.2 with
          | .error e => (stA, .error e)
          | .ok () =>
            let mv := stA.fs.rename doc.abs_path new_abs_path
            let stB := { stA with fs := mv.1 }
            match mv.2 with
            | .error e => (stB, .error e)
            | .ok () =>
              let docs1 := stB.docs.map (fun d =>
                if d.id = doc.id then
                  { d with name := new_name, rel_path := new_rel_path,
                           abs_path := new_abs_path, updated_at := ts }
                else d)
              let stC := { stB with
                docs := docs1,
                events := stB.events ++ [.doc (.renamed rel_doc_path new_rel_path)] }
              (stC, .ok { old_path := rel_doc_path, new_path := new_rel_path })

/-- `move_doc`. -/
def move_doc (root ts : Str) (st : St) (doc_path dest_folder_path : Str) :
    St × Except Err RenameResult :=
  match normalize_doc_path doc_path with
  | .error e => (st, .error e)
  | .ok rel_doc_path =>
    match findDoc st rel_doc_path with
    | none => (st, .error (doc_not_found rel_doc_path))
    | some doc =>
      let dest_rel_folder := normalize_folder_path dest_folder_path
      match findFolder st dest_rel_folder with
      | none => (st, .error (folder_not_found dest_rel_folder))
      | some dest_folder =>
        let new_rel_path :=
          if dest_folder.rel_path.isEmpty then doc.name
          else dest_folder.rel_path ++ ['/'] ++ doc.name
        if (findDoc st new_rel_path).isSome then
          (st, .error (.message (str "Document \"" ++ new_rel_path ++ str "\" already exists.")))
        else
          let new_abs_path := joinPath root new_rel_path
          let mk :=
            match pathParent new_abs_path with
            | some parentAbs => st.fs.mkdir_all parentAbs
            | none => (st.fs, .ok ())
          let stA := { st with fs := mk.1 }
          match mk.2 with
          | .error e => (stA, .error e)
          | .ok () =>
            let mv := stA.fs.rename doc.abs_path new_abs_path
            let stB := { stA with fs := mv.1 }
            match mv.2 with
            | .error e => (stB, .error e)
            | .ok () =>
              let docs1 := stB.docs.map (fun d =>
                if d.id = doc.id then
                  { d with folder_id := dest_folder.id, rel_path := new_rel_path,
                           abs_path := new_abs_path, updated_at := ts }
                else d)
              let stC := { stB with
                docs := docs1,
                events := stB.events ++ [.doc (.moved rel_doc_path new_rel_path)] }
              (stC, .ok { old_path := rel_doc_path, new_path := new_rel_path })

/-- `get_doc_by_stable_id`. -/
def get_doc_by_stable_id (st : St) (stable_id : Str) : Except Err DocRow :=
  let cleaned := rustTrim stable_id
  if cleaned.isEmpty then .error (.message (str "stable_id is required."))
  else
    match st.docs.find? (fun d => d.stable_id == cleaned) with
    | some doc => .ok doc
    | none =>
      .error (.message (str "Document with stable_id \"" ++ cleaned ++ str "\" not found."))

/-! ## Claims C1, C6, C7, C9: catalog operations -/

/-- `parent_rel_path` never returns `some []`. -/
theorem parent_rel_path_ne_nil {rel p : Str} (h : parent_rel_path rel = some p) : p ≠ [] := by
  unfold parent_rel_path at h
  split at h
  · simp at h
  · dsimp only at h
    split at h
    · simp at h
    · next hj => simp at h; rw [← h]; exact hj

/-- `ensure_folder_record` on an existing folder changes nothing. -/
theorem ensureFolderRecord_found (root ts : Str) (fuel : Nat) (st : St) (p : Str) (e : FolderRow)
    (h : findFolder st p = some e) (hp : p ≠ []) :
    ensureFolderRecord root ts fuel st p = (st, .ok (some e)) := by
  unfold ensureFolderRecord
  rw [if_neg hp, h]

/-- Claim C6: `remove_folder(p, force = false)` on an existing folder with
at least one child folder or doc fails with the `Conflict` error, and the
returned state — folder rows, doc rows, filesystem and event log — is
exactly the pre-call state (the conflict check runs before any delete and
before any filesystem removal). -/
theorem c6_remove_folder_conflict (st : St) (path rel : Str) (folder : FolderRow)
    (hnorm : normalize_folder_path path = rel) (hne : rel ≠ [])
    (hfind : findFolder st rel = some folder)
    (hnonempty : 0 < (st.folders.filter (fun r => r.parent_id == some folder.id)).length
               ∨ 0 < (st.docs.filter (fun d => d.folder_id == folder.id)).length) :
    remove_folder st path false = (st, .error (folder_not_empty rel)) := by
  unfold remove_folder
  rw [hnorm, if_neg hne, hfind]
  dsimp only
  split
  · rfl
  · next hcond => exact absurd ⟨rfl, hnonempty⟩ hcond

/-- Claim C7 (amended): `list_docs` applied to any input normalizing to
the root (empty) path FAILS with `Folder "" does not exist` whenever no
folder row has `rel_path = ""` (the service never creates one): the
`find_folder` lookup precedes the root special-cases, so the `%` pattern
and `folder_id IS NULL` branches are unreachable through this entry
point. -/
theorem c7_list_docs_root_errors (st : St) (input : Str)
    (hnorm : normalize_folder_path input = ([] : Str))
    (hroot : findFolder st [] = none) :
    list_docs st input true = .error (folder_not_found []) ∧
    list_docs st input false = .error (folder_not_found []) := by
  constructor <;> (unfold list_docs; rw [hnorm]; simp only [hroot])

/-- Claim C9: calling `create_folder` on an existing target with
`description = None` succeeds without inserting a row and overwrites the
stored description with the empty string (and bumps `updated_at`); the
previous description is not preserved. -/
theorem c9_create_folder_existing_none_description
    (root ts : Str) (st : St) (path rel : Str) (f : FolderRow)
    (hnorm : normalize_folder_path path = rel) (hne : rel ≠ [])
    (hfind : findFolder st rel = some f)
    (hcomp : rel ≠ (parent_rel_path rel).getD [])
    (hparent : ∀ p, parent_rel_path rel = some p → ∃ e2, findFolder st p = some e2) :
    create_folder root ts st path none =
      (update_folder_description ts st rel [],
       .ok { rel_path := rel, abs_path := joinPath root rel, description := [] }) ∧
    (update_folder_description ts st rel []).folders.length = st.folders.length ∧
    (update_folder_description ts st rel []).docs = st.docs ∧
    (update_folder_description ts st rel []).fs = st.fs ∧
    (update_folder_description ts st rel []).events = st.events ∧
    ∀ r ∈ (update_folder_description ts st rel []).folders,
      r.rel_path = rel → r.description = [] ∧ r.updated_at = ts := by
  have hens : (match parent_rel_path rel with
      | some parent => ensureFolderRecord root ts rel.length st parent
      | none => ((st, Except.ok none) : St × Except Err (Option FolderRow)))
      = (st, .ok ((parent_rel_path rel).bind (fun p => findFolder st p))) := by
    cases hp : parent_rel_path rel with
    | none => simp
    | some p =>
      obtain ⟨e2, he2⟩ := hparent p hp
      dsimp only
      rw [ensureFolderRecord_found root ts rel.length st p e2 he2 (parent_rel_path_ne_nil hp)]
      simp [he2]
  refine ⟨?_, ?_, rfl, rfl, rfl, ?_⟩
  · unfold create_folder
    rw [hnorm, if_neg hne]
    dsimp only
    rw [hens]
    dsimp only
    rw [if_pos ⟨hcomp, by rw [hfind]; rfl⟩]
    rfl
  · simp [update_folder_description]
  · intro r hr hrel
    unfold update_folder_description at hr
    simp only [List.mem_map] at hr
    obtain ⟨r0, hr0, hval⟩ := hr
    by_cases hcase : r0.rel_path == rel
    · rw [if_pos hcase] at hval
      rw [← hval]
      exact ⟨rfl, rfl⟩
    · rw [if_neg (by simpa using hcase)] at hval
      rw [← hval] at hrel
      exact absurd hrel (by simpa using hcase)

/-- Computation lemma: the successful path of `rename_doc`. -/
theorem rename_doc_eq (root ts : Str) (st : St) (doc_path new_name rel new_rel : Str)
    (doc : DocRow) (fs1 fs2 : Fs)
    (hname : (new_name.isEmpty || new_name.contains '/') = false)
    (hnorm : normalize_doc_path doc_path = .ok rel)
    (hfind : findDoc st rel = some doc)
    (hnewrel : new_rel =
      (match (parent_rel_path doc.rel_path).bind (fun p => if p.isEmpty then none else some p) with
       | some prfx => prfx ++ ['/'] ++ new_name
       | none => new_name))
    (htarget : findDoc st new_rel = none)
    (hmk : (match pathParent (joinPath root new_rel) with
            | some parentAbs => st.fs.mkdir_all parentAbs
            | none => (st.fs, .ok ())) = (fs1, .ok ()))
    (hmv : Fs.rename fs1 doc.abs_path (joinPath root new_rel) = (fs2, .ok ())) :
    rename_doc root ts st doc_path new_name =
      ({ st with
         fs := fs2,
         docs := st.docs.map (fun d =>
           if d.id = doc.id then
             { d with name := new_name, rel_path := new_rel,
                      abs_path := joinPath root new_rel, updated_at := ts }
           else d),
         events := st.events ++ [.doc (.renamed rel new_rel)] },
       .ok { old_path := rel, new_path := new_rel }) := by
  unfold rename_doc
  rw [hname, hnorm]
  try dsimp only
  rw [hfind]
  try dsimp only
  rw [← hnewrel, htarget]
  try dsimp only
  rw [hmk]
  try dsimp only
  rw [hmv]
  simp

/-- Computation lemma: the successful path of `move_doc`. -/
theorem move_doc_eq (root ts : Str) (st : St) (doc_path dest_folder_path rel dest_rel new_rel : Str)
    (doc : DocRow) (dest_folder : FolderRow) (fs1 fs2 : Fs)
    (hnorm : normalize_doc_path doc_path = .ok rel)
    (hfind : findDoc st rel = some doc)
    (hdest : normalize_folder_path dest_folder_path = dest_rel)
    (hdfind : findFolder st dest_rel = some dest_folder)
    (hnewrel : new_rel =
      (if dest_folder.rel_path.isEmpty then doc.name
       else dest_folder.rel_path ++ ['/'] ++ doc.name))
    (htarget : findDoc st new_rel = none)
    (hmk : (match pathParent (joinPath root new_rel) with
            | some parentAbs => st.fs.mkdir_all parentAbs
            | none => (st.fs, .ok ())) = (fs1, .ok ()))
    (hmv : Fs.rename fs1 doc.abs_path (joinPath root new_rel) = (fs2, .ok ())) :
    move_doc root ts st doc_path dest_folder_path =
      ({ st with
         fs := fs2,
         docs := st.docs.map (fun d =>
           if d.id = doc.id then
             { d with folder_id := dest_folder.id, rel_path := new_rel,
                      abs_path := joinPath root new_rel, updated_at := ts }
           else d),
         events := st.events ++ [.doc (.moved rel new_rel)] },
       .ok { old_path := rel, new_path := new_rel }) := by
  unfold move_doc
  rw [hnorm]
  try dsimp only
  rw [hfind]
  try dsimp only
  rw [hdest, hdfind]
  try dsimp only
  rw [← hnewrel, htarget]
  try dsimp only
  rw [hmk]
  try dsimp only
  rw [hmv]
  simp

/-- Looking up a stable id after an update-by-id that preserves it. -/
theorem find?_stable_of_update (docs : List DocRow) (doc : DocRow) (upd : DocRow → DocRow)
    (sid : Str)
    (hmem : doc ∈ docs)
    (hids : ∀ d ∈ docs, d.id = doc.id → d = doc)
    (huniq : ∀ d ∈ docs, d.stable_id = sid → d = doc)
    (hupd : (upd doc).stable_id = sid) :
    (docs.map (fun d => if d.id = doc.id then upd d else d)).find? (fun d => d.stable_id == sid)
      = some (upd doc) := by
  induction docs with
  | nil => simp at hmem
  | cons d ds ih =>
    rw [List.map_cons, List.find?_cons]
    by_cases hd : d.id = doc.id
    · have hdd : d = doc := hids d (List.mem_cons_self d ds) hd
      rw [if_pos hd]
      have : ((upd d).stable_id == sid) = true := by rw [hdd]; simpa using hupd
      rw [this, hdd]
    · rw [if_neg hd]
      have hds : (d.stable_id == sid) = false := by
        by_contra hcon
        have : d.stable_id = sid := by
          have := eq_true_of_ne_false hcon
          simpa using this
        exact hd (by rw [huniq d (List.mem_cons_self d ds) this])
      rw [hds]
      have hdoc_ds : doc ∈ ds := by
        cases List.mem_cons.mp hmem with
        | inl heq => exact absurd (by rw [heq]) hd
        | inr hmem2 => exact hmem2
      exact ih hdoc_ds
        (fun x hx he => hids x (List.mem_cons_of_mem d hx) he)
        (fun x hx he => huniq x (List.mem_cons_of_mem d hx) he)

/-- Claim C1: every successful `rename_doc` or `move_doc` keeps the row's
`id`, `stable_id`, `description` and `created_at` (the `UPDATE` touches
only `name`/`folder_id`, `rel_path`, `abs_path`, `updated_at`), leaves all
other doc rows untouched, and a subsequent `get_doc_by_stable_id` with the
same stable id returns the same doc under its new `rel_path`.  Stated for
every state whose stable ids and row ids are unique for the doc involved
(the schema's UNIQUE index and primary key). -/
theorem c1_stable_id_preserved (root ts : Str) (st : St) :
    (∀ doc_path new_name rel new_rel (doc : DocRow) (fs1 fs2 : Fs),
      (new_name.isEmpty || new_name.contains '/') = false →
      normalize_doc_path doc_path = .ok rel →
      findDoc st rel = some doc →
      new_rel =
        (match (parent_rel_path doc.rel_path).bind (fun p => if p.isEmpty then none else some p) with
         | some prfx => prfx ++ ['/'] ++ new_name
         | none => new_name) →
      findDoc st new_rel = none →
      (match pathParent (joinPath root new_rel) with
       | some parentAbs => st.fs.mkdir_all parentAbs
       | none => (st.fs, .ok ())) = (fs1, .ok ()) →
      Fs.rename fs1 doc.abs_path (joinPath root new_rel) = (fs2, .ok ()) →
      rustTrim doc.stable_id = doc.stable_id →
      doc.stable_id ≠ [] →
      (∀ d ∈ st.docs, d.id = doc.id → d = doc) →
      (∀ d ∈ st.docs, d.stable_id = doc.stable_id → d = doc) →
      ∃ st2, rename_doc root ts st doc_path new_name = (st2, .ok ⟨rel, new_rel⟩) ∧
        st2.docs = st.docs.map (fun d =>
          if d.id = doc.id then
            { d with name := new_name, rel_path := new_rel,
                     abs_path := joinPath root new_rel, updated_at := ts }
          else d) ∧
        get_doc_by_stable_id st2 doc.stable_id =
          .ok { doc with name := new_name, rel_path := new_rel,
                         abs_path := joinPath root new_rel, updated_at := ts }) ∧
    (∀ doc_path dest_folder_path rel dest_rel new_rel (doc : DocRow)
        (dest_folder : FolderRow) (fs1 fs2 : Fs),
      normalize_doc_path doc_path = .ok rel →
      findDoc st rel = some doc →
      normalize_folder_path dest_folder_path = dest_rel →
      findFolder st dest_rel = some dest_folder →
      new_rel =
        (if dest_folder.rel_path.isEmpty then doc.name
         else dest_folder.rel_path ++ ['/'] ++ doc.name) →
      findDoc st new_rel = none →
      (match pathParent (joinPath root new_rel) with
       | some parentAbs => st.fs.mkdir_all parentAbs
       | none => (st.fs, .ok ())) = (fs1, .ok ()) →
      Fs.rename fs1 doc.abs_path (joinPath root new_rel) = (fs2, .ok ()) →
      rustTrim doc.stable_id = doc.stable_id →
      doc.stable_id ≠ [] →
      (∀ d ∈ st.docs, d.id = doc.id → d = doc) →
      (∀ d ∈ st.docs, d.stable_id = doc.stable_id → d = doc) →
      ∃ st2, move_doc root ts st doc_path dest_folder_path = (st2, .ok ⟨rel, new_rel⟩) ∧
        st2.docs = st.docs.map (fun d =>
          if d.id = doc.id then
            { d with folder_id := dest_folder.id, rel_path := new_rel,
                     abs_path := joinPath root new_rel, updated_at := ts }
          else d) ∧
        get_doc_by_stable_id st2 doc.stable_id =
          .ok { doc with folder_id := dest_folder.id, rel_path := new_rel,
                         abs_path := joinPath root new_rel, updated_at := ts }) := by
  constructor
  · intro doc_path new_name rel new_rel doc fs1 fs2 hname hnorm hfind hnewrel htarget hmk hmv
      htrim hnonempty hids huniq
    have hmem : doc ∈ st.docs := List.mem_of_find?_eq_some hfind
    have heq := rename_doc_eq root ts st doc_path new_name rel new_rel doc fs1 fs2
      hname hnorm hfind hnewrel htarget hmk hmv
    refine ⟨_, heq, rfl, ?_⟩
    unfold get_doc_by_stable_id
    rw [htrim]
    rw [if_neg (by simp [List.isEmpty_iff]; exact hnonempty)]
    rw [find?_stable_of_update st.docs doc _ doc.stable_id hmem hids huniq rfl]
  · intro doc_path dest_folder_path rel dest_rel new_rel doc dest_folder fs1 fs2
      hnorm hfind hdest hdfind hnewrel htarget hmk hmv htrim hnonempty hids huniq
    have hmem : doc ∈ st.docs := List.mem_of_find?_eq_some hfind
    have heq := move_doc_eq root ts st doc_path dest_folder_path rel dest_rel new_rel doc
      dest_folder fs1 fs2 hnorm hfind hdest hdfind hnewrel htarget hmk hmv
    refine ⟨_, heq, rfl, ?_⟩
    unfold get_doc_by_stable_id
    rw [htrim]
    rw [if_neg (by simp [List.isEmpty_iff]; exact hnonempty)]
    rw [find?_stable_of_update st.docs doc _ doc.stable_id hmem hids huniq rfl]

def c6St : St :=
  { folders := [⟨1, none, str "p", str "p", str "R/p", [], str "t0", str "t0"⟩],
    docs := [⟨1, 1, str "d.md", str "p/d.md", str "R/p/d.md", [], str "sid", str "t0", str "t0"⟩],
    fs := ⟨[str "R", str "R/p"], [str "R/p/d.md"]⟩, events := [] }

/-- Witness for `c6_remove_folder_conflict`. -/
theorem c6_witness :
    normalize_folder_path (str "p") = str "p" ∧
    findFolder c6St (str "p") = some ⟨1, none, str "p", str "p", str "R/p", [], str "t0", str "t0"⟩ ∧
    0 < (c6St.docs.filter (fun d => d.folder_id == (1 : Nat))).length ∧
    remove_folder c6St (str "p") false = (c6St, .error (folder_not_empty (str "p"))) :=
  ⟨by decide, by decide, by decide,
   c6_remove_folder_conflict c6St (str "p") (str "p")
     ⟨1, none, str "p", str "p", str "R/p", [], str "t0", str "t0"⟩
     (by decide) (by decide) (by decide) (Or.inr (by decide))⟩

def c7St : St :=
  { folders := [⟨1, none, str "a", str "a", str "R/a", [], str "t0", str "t0"⟩],
    docs := [⟨1, 1, str "d.md", str "a/d.md", str "R/a/d.md", [], str "sid", str "t0", str "t0"⟩],
    fs := ⟨[str "R", str "R/a"], [str "R/a/d.md"]⟩, events := [] }

/-- Claim C7 counterexample: on a catalog holding a folder `a` with one
doc, `list_docs` at the root path returns `Folder "" does not exist`
instead of succeeding. -/
theorem c7_counterexample :
    list_docs c7St (str "") true = .error (folder_not_found []) ∧
    list_docs c7St (str "/") false = .error (folder_not_found []) ∧
    c7St.docs ≠ [] := by decide

/-- Witness for `c7_list_docs_root_errors`. -/
theorem c7_witness :
    normalize_folder_path (str "") = ([] : Str) ∧ findFolder c7St [] = none ∧
    (list_docs c7St (str "") true = .error (folder_not_found []) ∧
     list_docs c7St (str "") false = .error (folder_not_found [])) :=
  ⟨by decide, by decide, c7_list_docs_root_errors c7St (str "") (by decide) (by decide)⟩

def c9St : St :=
  { folders := [⟨1, none, str "p", str "p", str "R/p", str "old desc", str "t0", str "t0"⟩],
    docs := [], fs := ⟨[str "R", str "R/p"], []⟩, events := [] }

/-- Witness for `c9_create_folder_existing_none_description`. -/
theorem c9_witness :
    findFolder c9St (str "p")
      = some ⟨1, none, str "p", str "p", str "R/p", str "old desc", str "t0", str "t0"⟩ ∧
    (create_folder (str "R") (str "t1") c9St (str "p") none =
      (update_folder_description (str "t1") c9St (str "p") [],
       .ok { rel_path := str "p", abs_path := joinPath (str "R") (str "p"), description := [] }) ∧
     (update_folder_description (str "t1") c9St (str "p") []).folders.length
        = c9St.folders.length ∧
     (update_folder_description (str "t1") c9St (str "p") []).docs = c9St.docs ∧
     (update_folder_description (str "t1") c9St (str "p") []).fs = c9St.fs ∧
     (update_folder_description (str "t1") c9St (str "p") []).events = c9St.events ∧
     ∀ r ∈ (update_folder_description (str "t1") c9St (str "p") []).folders,
       r.rel_path = str "p" → r.description = [] ∧ r.updated_at = str "t1") :=
  ⟨by decide,
   c9_create_folder_existing_none_description (str "R") (str "t1") c9St (str "p") (str "p")
     ⟨1, none, str "p", str "p", str "R/p", str "old desc", str "t0", str "t0"⟩
     (by decide) (by decide) (by decide) (by decide)
     (fun p hp => Option.noConfusion ((show parent_rel_path (str "p") = none by decide).symm.trans hp))⟩

def c1St : St :=
  { folders := [⟨1, none, str "f", str "f", str "R/f", [], str "t0", str "t0"⟩,
                ⟨2, none, str "g", str "g", str "R/g", [], str "t0", str "t0"⟩],
    docs := [⟨1, 1, str "n.md", str "f/n.md", str "R/f/n.md", [], str "sid-1", str "t0", str "t0"⟩],
    fs := ⟨[str "R", str "R/f", str "R/g"], [str "R/f/n.md"]⟩,
    events := [] }

def c1Doc : DocRow := ⟨1, 1, str "n.md", str "f/n.md", str "R/f/n.md", [], str "sid-1", str "t0", str "t0"⟩

/-- Witness for `c1_stable_id_preserved`: a rename and a move on a
one-doc catalog. -/
theorem c1_witness :
    findDoc c1St (str "f/n.md") = some c1Doc ∧
    (∃ st2, rename_doc (str "R") (str "t1") c1St (str "f/n.md") (str "m.md")
        = (st2, .ok ⟨str "f/n.md", str "f/m.md"⟩) ∧
      st2.docs = c1St.docs.map (fun d =>
        if d.id = c1Doc.id then
          { d with name := str "m.md", rel_path := str "f/m.md",
                   abs_path := joinPath (str "R") (str "f/m.md"), updated_at := str "t1" }
        else d) ∧
      get_doc_by_stable_id st2 c1Doc.stable_id =
        .ok { c1Doc with name := str "m.md", rel_path := str "f/m.md",
                         abs_path := joinPath (str "R") (str "f/m.md"), updated_at := str "t1" }) ∧
    (∃ st2, move_doc (str "R") (str "t1") c1St (str "f/n.md") (str "g")
        = (st2, .ok ⟨str "f/n.md", str "g/n.md"⟩) ∧
      st2.docs = c1St.docs.map (fun d =>
        if d.id = c1Doc.id then
          { d with folder_id := 2, rel_path := str "g/n.md",
                   abs_path := joinPath (str "R") (str "g/n.md"), updated_at := str "t1" }
        else d) ∧
      get_doc_by_stable_id st2 c1Doc.stable_id =
        .ok { c1Doc with folder_id := 2, rel_path := str "g/n.md",
                         abs_path := joinPath (str "R") (str "g/n.md"), updated_at := str "t1" }) :=
  ⟨by decide,
   (c1_stable_id_preserved (str "R") (str "t1") c1St).1 (str "f/n.md") (str "m.md")
     (str "f/n.md") (str "f/m.md") c1Doc
     ⟨[str "R", str "R/f", str "R/g"], [str "R/f/n.md"]⟩
     ⟨[str "R", str "R/f", str "R/g"], [str "R/f/m.md"]⟩
     (by decide) (by decide) (by decide) (by decide) (by decide) (by decide) (by decide)
     (by decide) (by decide) (by decide) (by decide),
   (c1_stable_id_preserved (str "R") (str "t1") c1St).2 (str "f/n.md") (str "g")
     (str "f/n.md") (str "g") (str "g/n.md") c1Doc
     ⟨2, none, str "g", str "g", str "R/g", [], str "t0", str "t0"⟩
     ⟨[str "R", str "R/f", str "R/g"], [str "R/f/n.md"]⟩
     ⟨[str "R", str "R/f", str "R/g"], [str "R/g/n.md"]⟩
     (by decide) (by decide) (by decide) (by decide) (by decide) (by decide) (by decide)
     (by decide) (by decide) (by decide) (by decide) (by decide)⟩

/-! ## Claim C2: rename_folder subtree rewrite -/

/-- Every scalar value occupies at least one byte. -/
theorem utf8Len_pos (c : Char) : 1 ≤ utf8Len c := by
  unfold utf8Len
  split
  · omega
  · split
    · omega
    · split <;> omega

/-- UTF-8 byte length is additive over concatenation. -/
theorem utf8ByteLen_append (p q : Str) : utf8ByteLen (p ++ q) = utf8ByteLen p + utf8ByteLen q := by
  unfold utf8ByteLen
  rw [List.map_append, List.sum_append]

/-- One step of `byteDrop?` past a whole character. -/
theorem byteDrop?_cons (n : Nat) (c : Char) (s : Str) (h : 1 ≤ n) (hc : utf8Len c ≤ n) :
    byteDrop? n (c :: s) = byteDrop? (n - utf8Len c) s := by
  cases n with
  | zero => omega
  | succ m =>
    unfold byteDrop?
    rw [if_pos hc, byteDrop?.eq_def]

/-- Dropping exactly the bytes of a prefix yields the suffix. -/
theorem byteDrop?_append (p q : Str) : byteDrop? (utf8ByteLen p) (p ++ q) = some q := by
  induction p with
  | nil => simp [utf8ByteLen, byteDrop?]
  | cons c cs ih =>
    have hlen : utf8ByteLen (c :: cs) = utf8Len c + utf8ByteLen cs := by
      unfold utf8ByteLen
      rw [List.map_cons, List.sum_cons]
    have hpos := utf8Len_pos c
    rw [hlen, List.cons_append, byteDrop?_cons _ _ _ (by omega) (by omega)]
    have : utf8Len c + utf8ByteLen cs - utf8Len c = utf8ByteLen cs := by omega
    rw [this, ih]

/-- When the old path plus `/` is a true prefix, the byte-sliced subtree
rewrite succeeds and equals the character-level drop. -/
theorem rewriteRelPath_of_prefixed (old newRel rel : Str)
    (h : (old ++ ['/']).isPrefixOf rel = true) :
    rewriteRelPath old newRel rel = some (newRel ++ ['/'] ++ rel.drop (old.length + 1)) := by
  rw [List.isPrefixOf_iff_prefix] at h
  obtain ⟨s, hs⟩ := h
  unfold rewriteRelPath
  have hb : utf8ByteLen old + 1 = utf8ByteLen (old ++ ['/']) := by
    rw [utf8ByteLen_append]
    simp [utf8ByteLen, utf8Len]
  rw [← hs, hb, byteDrop?_append]
  have hdrop : List.drop (old.length + 1) (old ++ ['/'] ++ s) = s := by
    rw [show old.length + 1 = (old ++ ['/']).length by simp, List.drop_left]
  rw [hdrop]
  rfl

/-- `mapM` over `Option` collapses to `map` when every step succeeds. -/
theorem mapM_option_eq_map {α β : Type} (f : α → Option β) (g : α → β) (l : List α)
    (h : ∀ x ∈ l, f x = some (g x)) : l.mapM f = some (l.map g) := by
  induction l with
  | nil => rfl
  | cons x xs ih =>
    rw [List.mapM_cons, h x (List.mem_cons_self x xs),
      ih (fun y hy => h y (List.mem_cons_of_mem x hy))]
    rfl

/-- A prefix stays a prefix of any extension. -/
theorem prefix_extend {α : Type} {xs ys : List α} (zs : List α) (h : xs <+: ys) :
    xs <+: ys ++ zs :=
  h.trans (List.prefix_append ys zs)

/-- Paths rewritten under `newRel` are neither the old path nor under it,
provided neither of the two slash-terminated paths prefixes the other. -/
theorem not_prefix_rewrite (o n s : Str)
    (h2 : ¬ (o ++ ['/']) <+: (n ++ ['/']))
    (h3 : ¬ (n ++ ['/']) <+: (o ++ ['/'])) :
    ¬ (o ++ ['/']) <+: (n ++ ['/'] ++ s) ∧ n ++ ['/'] ++ s ≠ o := by
  constructor
  · intro hcon
    by_cases hlen : (o ++ ['/']).length ≤ (n ++ ['/']).length
    · exact h2 (List.prefix_of_prefix_length_le hcon (List.prefix_append _ s) hlen)
    · exact h3 (List.prefix_of_prefix_length_le (List.prefix_append _ s) hcon (by omega))
  · intro hcon
    apply h3
    rw [← hcon]
    exact prefix_extend _ (List.prefix_append _ s)

/-- Computation lemma: the successful path of `rename_folder`, under
LIKE-pattern exactness for the rows of the state. -/
theorem rename_folder_eq (root ts : Str) (st : St) (path new_name relN newRel : Str)
    (f : FolderRow) (fs1 fs2 : Fs)
    (hnorm : normalize_folder_path path = relN)
    (hne : relN ≠ [])
    (hname : (new_name.isEmpty || new_name.contains '/') = false)
    (hfind : findFolder st relN = some f)
    (hnewrel : newRel = (match parent_rel_path relN with
        | some parent => if parent.isEmpty then new_name else parent ++ ['/'] ++ new_name
        | none => new_name))
    (htarget : findFolder st newRel = none)
    (hmk : (match pathParent (joinPath root newRel) with
            | some parentAbs => st.fs.mkdir_all parentAbs
            | none => (st.fs, .ok ())) = (fs1, .ok ()))
    (hmv : Fs.rename fs1 f.abs_path (joinPath root newRel) = (fs2, .ok ()))
    (hexactF : ∀ r ∈ st.folders, likeMatch (f.rel_path ++ str "/%") r.rel_path
        = (f.rel_path ++ ['/']).isPrefixOf r.rel_path)
    (hexactD : ∀ d ∈ st.docs, likeMatch (f.rel_path ++ str "/%") d.rel_path
        = (f.rel_path ++ ['/']).isPrefixOf d.rel_path)
    (hnew9 : likeMatch (f.rel_path ++ str "/%") newRel = false) :
    rename_folder root ts st path new_name =
      ({ st with
         fs := fs2,
         folders := (st.folders.map (fun r =>
           if r.id = f.id then
             { r with name := new_name, rel_path := newRel,
                      abs_path := joinPath root newRel, updated_at := ts }
           else r)).map (fun r =>
             if likeMatch (f.rel_path ++ str "/%") r.rel_path then
               { r with rel_path := newRel ++ ['/'] ++ r.rel_path.drop (f.rel_path.length + 1),
                        abs_path := joinPath root (newRel ++ ['/'] ++ r.rel_path.drop (f.rel_path.length + 1)),
                        updated_at := ts }
             else r),
         docs := st.docs.map (fun d =>
           if likeMatch (f.rel_path ++ str "/%") d.rel_path then
             { d with rel_path := newRel ++ ['/'] ++ d.rel_path.drop (f.rel_path.length + 1),
                      abs_path := joinPath root (newRel ++ ['/'] ++ d.rel_path.drop (f.rel_path.length + 1)),
                      updated_at := ts }
           else d),
         events := st.events ++ [.folder (.renamed relN newRel
           (((st.docs.filter (fun d => likeMatch (f.rel_path ++ str "/%") d.rel_path)).map
               (fun d => d.rel_path)).map
             (fun p => (p, newRel ++ ['/'] ++ p.drop (f.rel_path.length + 1)))))] },
       .ok { old_path := relN, new_path := newRel }) := by
  have hF : rewriteFolderRows root ts f.rel_path newRel
      (st.folders.map (fun r =>
        if r.id = f.id then
          { r with name := new_name, rel_path := newRel,
                   abs_path := joinPath root newRel, updated_at := ts }
        else r))
      = some ((st.folders.map (fun r =>
          if r.id = f.id then
            { r with name := new_name, rel_path := newRel,
                     abs_path := joinPath root newRel, updated_at := ts }
          else r)).map (fun r =>
            if likeMatch (f.rel_path ++ str "/%") r.rel_path then
              { r with rel_path := newRel ++ ['/'] ++ r.rel_path.drop (f.rel_path.length + 1),
                       abs_path := joinPath root (newRel ++ ['/'] ++ r.rel_path.drop (f.rel_path.length + 1)),
                       updated_at := ts }
            else r)) := by
    apply mapM_option_eq_map
    intro r hr
    obtain ⟨r0, hr0, hval⟩ := List.mem_map.mp hr
    by_cases hid : r0.id = f.id
    · rw [if_pos hid] at hval
      rw [← hval]
      simp only [hnew9]
      rfl
    · rw [if_neg hid] at hval
      subst hval
      by_cases hlike : likeMatch (f.rel_path ++ str "/%") r0.rel_path
      · rw [if_pos hlike, if_pos hlike,
          rewriteRelPath_of_prefixed _ _ _ (by rw [← hexactF r0 hr0]; exact hlike)]
        rfl
      · rw [if_neg hlike, if_neg hlike]
  have hD : rewriteDocRows root ts f.rel_path newRel st.docs
      = some (st.docs.map (fun d =>
          if likeMatch (f.rel_path ++ str "/%") d.rel_path then
            { d with rel_path := newRel ++ ['/'] ++ d.rel_path.drop (f.rel_path.length + 1),
                     abs_path := joinPath root (newRel ++ ['/'] ++ d.rel_path.drop (f.rel_path.length + 1)),
                     updated_at := ts }
          else d)) := by
    apply mapM_option_eq_map
    intro d hd
    by_cases hlike : likeMatch (f.rel_path ++ str "/%") d.rel_path
    · rw [if_pos hlike, if_pos hlike,
        rewriteRelPath_of_prefixed _ _ _ (by rw [← hexactD d hd]; exact hlike)]
      rfl
    · rw [if_neg hlike, if_neg hlike]
  have hA : affectedPairs f.rel_path newRel
      ((st.docs.filter (fun d => likeMatch (f.rel_path ++ str "/%") d.rel_path)).map
        (fun d => d.rel_path))
      = some (((st.docs.filter (fun d => likeMatch (f.rel_path ++ str "/%") d.rel_path)).map
          (fun d => d.rel_path)).map
            (fun p => (p, newRel ++ ['/'] ++ p.drop (f.rel_path.length + 1)))) := by
    apply mapM_option_eq_map
    intro p hp
    obtain ⟨d, hd, hdp⟩ := List.mem_map.mp hp
    have hd2 := List.mem_filter.mp hd
    rw [rewriteRelPath_of_prefixed _ _ _ (by rw [← hdp, ← hexactD d hd2.1]; exact hd2.2)]
    rfl
  unfold rename_folder
  rw [hnorm, if_neg hne]
  rw [if_neg (by rw [hname]; exact Bool.false_ne_true)]
  rw [hfind]
  try dsimp only
  rw [← hnewrel, htarget]
  try dsimp only
  rw [hmk]
  try dsimp only
  rw [hmv]
  try dsimp only
  rw [hF, hD]
  try dsimp only
  rw [hA]
  simp

/-- Claim C2 (amended): for every successful `rename_folder(a, b)`
returning `{old, new}`, PROVIDED the SQLite pattern `a/%` matches exactly
the rows whose `rel_path` literally extends `a/` (true in particular when
`a` contains neither `%` nor `_` and no distinct row collides with it
modulo ASCII case — `LIKE` is ASCII-case-insensitive), no doc row sits at
`a` itself, folder ids and `rel_path`s are unique, and neither of
`old/`, `new/` prefixes the other: afterwards no folder or doc row has
`rel_path` equal to `old` or under `old/`; every prior descendant row now
has the equivalent path under `new/` (same id, other columns untouched,
`updated_at := ts`); and exactly one `FolderEvent::Renamed` is emitted
whose `affected_docs` pairs the prior doc paths under `old/` with their
rewrites.  Without the no-metacharacter proviso the claim fails: see
`c2_counterexample`. -/
theorem c2_rename_folder_subtree (root ts : Str) (st : St) (path new_name relN newRel : Str)
    (f : FolderRow) (fs1 fs2 : Fs)
    (hnorm : normalize_folder_path path = relN)
    (hne : relN ≠ [])
    (hname : (new_name.isEmpty || new_name.contains '/') = false)
    (hfind : findFolder st relN = some f)
    (hnewrel : newRel = (match parent_rel_path relN with
        | some parent => if parent.isEmpty then new_name else parent ++ ['/'] ++ new_name
        | none => new_name))
    (htarget : findFolder st newRel = none)
    (hmk : (match pathParent (joinPath root newRel) with
            | some parentAbs => st.fs.mkdir_all parentAbs
            | none => (st.fs, .ok ())) = (fs1, .ok ()))
    (hmv : Fs.rename fs1 f.abs_path (joinPath root newRel) = (fs2, .ok ()))
    (hexactF : ∀ r ∈ st.folders, likeMatch (f.rel_path ++ str "/%") r.rel_path
        = (f.rel_path ++ ['/']).isPrefixOf r.rel_path)
    (hexactD : ∀ d ∈ st.docs, likeMatch (f.rel_path ++ str "/%") d.rel_path
        = (f.rel_path ++ ['/']).isPrefixOf d.rel_path)
    (hnew9 : likeMatch (f.rel_path ++ str "/%") newRel = false)
    (hnp2 : ¬ (f.rel_path ++ ['/']) <+: (newRel ++ ['/']))
    (hnp3 : ¬ (newRel ++ ['/']) <+: (f.rel_path ++ ['/']))
    (hidsF : ∀ r1 ∈ st.folders, ∀ r2 ∈ st.folders, r1.id = r2.id → r1 = r2)
    (hrelF : ∀ r ∈ st.folders, r.rel_path = f.rel_path → r = f)
    (hdocold : ∀ d ∈ st.docs, d.rel_path ≠ f.rel_path) :
    ∀ st2 res, rename_folder root ts st path new_name = (st2, res) →
      res = .ok ⟨relN, newRel⟩ ∧
      (∀ r ∈ st2.folders, r.rel_path ≠ f.rel_path ∧ ¬ (f.rel_path ++ ['/']) <+: r.rel_path) ∧
      (∀ d ∈ st2.docs, d.rel_path ≠ f.rel_path ∧ ¬ (f.rel_path ++ ['/']) <+: d.rel_path) ∧
      (∀ r ∈ st.folders, ∀ s, r.rel_path = f.rel_path ++ ['/'] ++ s →
        ∃ r2 ∈ st2.folders, r2.id = r.id ∧ r2.rel_path = newRel ++ ['/'] ++ s ∧
          r2.name = r.name ∧ r2.parent_id = r.parent_id ∧ r2.description = r.description ∧
          r2.abs_path = joinPath root (newRel ++ ['/'] ++ s) ∧ r2.updated_at = ts) ∧
      (∀ d ∈ st.docs, ∀ s, d.rel_path = f.rel_path ++ ['/'] ++ s →
        ∃ d2 ∈ st2.docs, d2.id = d.id ∧ d2.rel_path = newRel ++ ['/'] ++ s ∧
          d2.name = d.name ∧ d2.stable_id = d.stable_id ∧ d2.folder_id = d.folder_id ∧
          d2.abs_path = joinPath root (newRel ++ ['/'] ++ s) ∧ d2.updated_at = ts) ∧
      (∃ r2 ∈ st2.folders, r2.id = f.id ∧ r2.rel_path = newRel ∧ r2.name = new_name) ∧
      st2.events = st.events ++ [.folder (.renamed relN newRel
        ((st.docs.filter (fun d => (f.rel_path ++ ['/']).isPrefixOf d.rel_path)).map
          (fun d => (d.rel_path, newRel ++ ['/'] ++ d.rel_path.drop (f.rel_path.length + 1)))))] := by
  intro st2 res hrun
  have heq := rename_folder_eq root ts st path new_name relN newRel f fs1 fs2
    hnorm hne hname hfind hnewrel htarget hmk hmv hexactF hexactD hnew9
  have hpair := hrun.symm.trans heq
  have hst2 := congrArg Prod.fst hpair
  have hres := congrArg Prod.snd hpair
  simp only at hst2 hres
  subst hst2
  have hfrel : f.rel_path = relN := by
    have := List.find?_some hfind
    simpa using this
  have hmemf : f ∈ st.folders := List.mem_of_find?_eq_some hfind
  have hne2 : newRel ≠ f.rel_path := by
    intro hcon
    rw [hfrel] at hcon
    rw [hcon] at htarget
    rw [htarget] at hfind
    exact Option.noConfusion hfind
  refine ⟨hres, ?_, ?_, ?_, ?_, ?_, ?_⟩
  · -- (a) folders
    intro r2 hr2
    obtain ⟨r1, hr1, hgf⟩ := List.mem_map.mp hr2
    obtain ⟨r0, hr0, hupdf⟩ := List.mem_map.mp hr1
    by_cases hid : r0.id = f.id
    · rw [if_pos hid] at hupdf
      rw [← hupdf] at hgf
      rw [if_neg (by simp [hnew9])] at hgf
      rw [← hgf]
      refine ⟨hne2, fun hcon => hnp2 (prefix_extend _ hcon)⟩
    · rw [if_neg hid] at hupdf
      subst hupdf
      by_cases hlike : likeMatch (f.rel_path ++ str "/%") r0.rel_path = true
      · have hpre : (f.rel_path ++ ['/']) <+: r0.rel_path := by
          rw [← List.isPrefixOf_iff_prefix, ← hexactF r0 hr0]
          exact hlike
        obtain ⟨s, hs⟩ := hpre
        have hdrop : r0.rel_path.drop (f.rel_path.length + 1) = s := by
          rw [← hs, show f.rel_path.length + 1 = (f.rel_path ++ ['/']).length by simp,
            List.drop_left]
        rw [if_pos hlike] at hgf
        rw [← hgf]
        have hnpr := not_prefix_rewrite f.rel_path newRel s hnp2 hnp3
        simp only [hdrop]
        exact ⟨hnpr.2, hnpr.1⟩
      · rw [if_neg hlike] at hgf
        rw [← hgf]
        constructor
        · intro hcon
          have := hrelF r0 hr0 hcon
          rw [this] at hid
          exact hid rfl
        · intro hcon
          rw [← List.isPrefixOf_iff_prefix, ← hexactF r0 hr0] at hcon
          exact hlike hcon
  · -- (a) docs
    intro d2 hd2
    obtain ⟨d0, hd0, hgd⟩ := List.mem_map.mp hd2
    by_cases hlike : likeMatch (f.rel_path ++ str "/%") d0.rel_path = true
    · have hpre : (f.rel_path ++ ['/']) <+: d0.rel_path := by
        rw [← List.isPrefixOf_iff_prefix, ← hexactD d0 hd0]
        exact hlike
      obtain ⟨s, hs⟩ := hpre
      have hdrop : d0.rel_path.drop (f.rel_path.length + 1) = s := by
        rw [← hs, show f.rel_path.length + 1 = (f.rel_path ++ ['/']).length by simp,
          List.drop_left]
      rw [if_pos hlike] at hgd
      rw [← hgd]
      have hnpr := not_prefix_rewrite f.rel_path newRel s hnp2 hnp3
      simp only [hdrop]
      exact ⟨hnpr.2, hnpr.1⟩
    · rw [if_neg hlike] at hgd
      rw [← hgd]
      refine ⟨hdocold d0 hd0, fun hcon => ?_⟩
      rw [← List.isPrefixOf_iff_prefix, ← hexactD d0 hd0] at hcon
      exact hlike hcon
  · -- (b) folders
    intro r hr s hs
    have hid : r.id ≠ f.id := by
      intro he
      have hrf := hidsF r hr f hmemf he
      rw [hrf] at hs
      have := congrArg List.length hs
      simp at this
    have hlike : likeMatch (f.rel_path ++ str "/%") r.rel_path = true := by
      rw [hexactF r hr, List.isPrefixOf_iff_prefix]
      exact ⟨s, hs.symm⟩
    have hdrop : r.rel_path.drop (f.rel_path.length + 1) = s := by
      rw [hs, show f.rel_path.length + 1 = (f.rel_path ++ ['/']).length by simp,
        List.drop_left]
    refine ⟨_, List.mem_map.mpr ⟨_, List.mem_map.mpr ⟨r, hr, rfl⟩, rfl⟩, ?_⟩
    rw [if_neg hid, if_pos hlike]
    simp [hdrop]
  · -- (b) docs
    intro d hd s hs
    have hlike : likeMatch (f.rel_path ++ str "/%") d.rel_path = true := by
      rw [hexactD d hd, List.isPrefixOf_iff_prefix]
      exact ⟨s, hs.symm⟩
    have hdrop : d.rel_path.drop (f.rel_path.length + 1) = s := by
      rw [hs, show f.rel_path.length + 1 = (f.rel_path ++ ['/']).length by simp,
        List.drop_left]
    refine ⟨_, List.mem_map.mpr ⟨d, hd, rfl⟩, ?_⟩
    rw [if_pos hlike]
    simp [hdrop]
  · -- the folder row itself
    refine ⟨_, List.mem_map.mpr ⟨_, List.mem_map.mpr ⟨f, hmemf, rfl⟩, rfl⟩, ?_⟩
    rw [if_pos rfl]
    rw [if_neg (by simp [hnew9])]
    exact ⟨rfl, rfl, rfl⟩
  · -- (c) the single event
    simp only
    rw [List.map_map]
    rw [List.filter_congr (fun d hd => (hexactD d hd))]
    rfl

def c2St : St :=
  { folders := [⟨1, none, str "a_b", str "a_b", str "R/a_b", [], str "t0", str "t0"⟩,
                ⟨2, none, str "axb", str "axb", str "R/axb", [], str "t0", str "t0"⟩],
    docs := [⟨1, 2, str "d.md", str "axb/d.md", str "R/axb/d.md", [], str "sid1", str "t0", str "t0"⟩],
    fs := ⟨[str "R", str "R/a_b", str "R/axb"], [str "R/axb/d.md"]⟩,
    events := [] }

/-- Claim C2 counterexample: the `LIKE` pattern built from the folder path
`a_b` (which contains `_`) also matches the unrelated doc `axb/d.md`, so
`rename_folder("a_b", "c")` rewrites that doc to `c/d.md` and reports it
in `affected_docs`, although no doc at all lay under `a_b/`. -/
theorem c2_counterexample :
    (rename_folder (str "R") (str "t1") c2St (str "a_b") (str "c")).2
      = .ok ⟨str "a_b", str "c"⟩ ∧
    c2St.docs.filter (fun d => (str "a_b/").isPrefixOf d.rel_path) = [] ∧
    (rename_folder (str "R") (str "t1") c2St (str "a_b") (str "c")).1.events
      = [.folder (.renamed (str "a_b") (str "c") [(str "axb/d.md", str "c/d.md")])] ∧
    (rename_folder (str "R") (str "t1") c2St (str "a_b") (str "c")).1.docs.map DocRow.rel_path
      = [str "c/d.md"] := by decide

def c2WSt : St :=
  { folders := [⟨1, none, str "p", str "p", str "R/p", [], str "t0", str "t0"⟩,
                ⟨2, some 1, str "q", str "p/q", str "R/p/q", [], str "t0", str "t0"⟩],
    docs := [⟨1, 2, str "x.md", str "p/q/x.md", str "R/p/q/x.md", [], str "sidx", str "t0", str "t0"⟩],
    fs := ⟨[str "R", str "R/p", str "R/p/q"], [str "R/p/q/x.md"]⟩,
    events := [] }

def c2WSt2 : St :=
  { folders := [⟨1, none, str "r", str "r", str "R/r", [], str "t0", str "t1"⟩,
                ⟨2, some 1, str "q", str "r/q", str "R/r/q", [], str "t0", str "t1"⟩],
    docs := [⟨1, 2, str "x.md", str "r/q/x.md", str "R/r/q/x.md", [], str "sidx", str "t0", str "t1"⟩],
    fs := ⟨[str "R", str "R/r", str "R/r/q"], [str "R/r/q/x.md"]⟩,
    events := [.folder (.renamed (str "p") (str "r") [(str "p/q/x.md", str "r/q/x.md")])] }

/-- Witness for `c2_rename_folder_subtree` on a metacharacter-free
catalog. -/
theorem c2_witness :
    rename_folder (str "R") (str "t1") c2WSt (str "p") (str "r")
      = (c2WSt2, .ok ⟨str "p", str "r"⟩) ∧
    ((.ok ⟨str "p", str "r"⟩ : Except Err RenameResult) = .ok ⟨str "p", str "r"⟩ ∧
     (∀ r ∈ c2WSt2.folders, r.rel_path ≠ str "p" ∧ ¬ (str "p" ++ ['/']) <+: r.rel_path) ∧
     (∀ d ∈ c2WSt2.docs, d.rel_path ≠ str "p" ∧ ¬ (str "p" ++ ['/']) <+: d.rel_path) ∧
     (∀ r ∈ c2WSt.folders, ∀ s, r.rel_path = str "p" ++ ['/'] ++ s →
       ∃ r2 ∈ c2WSt2.folders, r2.id = r.id ∧ r2.rel_path = str "r" ++ ['/'] ++ s ∧
         r2.name = r.name ∧ r2.parent_id = r.parent_id ∧ r2.description = r.description ∧
         r2.abs_path = joinPath (str "R") (str "r" ++ ['/'] ++ s) ∧ r2.updated_at = str "t1") ∧
     (∀ d ∈ c2WSt.docs, ∀ s, d.rel_path = str "p" ++ ['/'] ++ s →
       ∃ d2 ∈ c2WSt2.docs, d2.id = d.id ∧ d2.rel_path = str "r" ++ ['/'] ++ s ∧
         d2.name = d.name ∧ d2.stable_id = d.stable_id ∧ d2.folder_id = d.folder_id ∧
         d2.abs_path = joinPath (str "R") (str "r" ++ ['/'] ++ s) ∧ d2.updated_at = str "t1") ∧
     (∃ r2 ∈ c2WSt2.folders, r2.id = 1 ∧ r2.rel_path = str "r" ∧ r2.name = str "r") ∧
     c2WSt2.events = c2WSt.events ++ [.folder (.renamed (str "p") (str "r")
       ((c2WSt.docs.filter (fun d => (str "p" ++ ['/']).isPrefixOf d.rel_path)).map
         (fun d => (d.rel_path, str "r" ++ ['/'] ++ d.rel_path.drop ((str "p").length + 1)))))]) :=
  ⟨by decide,
   c2_rename_folder_subtree (str "R") (str "t1") c2WSt (str "p") (str "r") (str "p") (str "r")
     ⟨1, none, str "p", str "p", str "R/p", [], str "t0", str "t0"⟩
     ⟨[str "R", str "R/p", str "R/p/q"], [str "R/p/q/x.md"]⟩
     ⟨[str "R", str "R/r", str "R/r/q"], [str "R/r/q/x.md"]⟩
     (by decide) (by decide) (by decide) (by decide) (by decide) (by decide) (by decide)
     (by decide) (by decide) (by decide) (by decide) (by decide) (by decide) (by decide)
     (by decide) (by decide)
     c2WSt2 (.ok ⟨str "p", str "r"⟩) (by decide)⟩

end OpenContext
